import Mathlib

/-!
Shallow embedding of the CarbonWeb sales-dashboard aggregation pipeline
(`src/api/debug-users.ts`, `processData` and its helpers) and of the
narrative-enrichment endpoint, with theorems settling the frozen claims.

JS numbers are modelled by `Q`, an exact rational held as an integer
numerator over an integer denominator (every finite IEEE double is such a
rational); `null`/`undefined` is `Option`; the runtime primitives the code
calls on strings (`new Date(s)`, `parseFloat(s)`,
`Number.prototype.toLocaleString`) are modelled as the fields of a
`JsRuntime` parameter, so every theorem holds for every runtime. JS string
methods (`split`, `trim`, `toUpperCase`, …) are modelled by character-list
functions. The JSON decoding of a column's raw `value` string (`JSON.parse`
plus the property reads the code performs) is modelled by presenting the
value as its decoded form (`JsonValue`), with a `malformed` constructor
standing for a string on which `JSON.parse` throws.
-/

/-- An exact rational number standing for a finite JS number: numerator over
denominator, not necessarily reduced. All operations are structural (no
gcd normalization), so they evaluate by kernel reduction. A value produced
by the modelled runtime has a positive denominator
(`JsRuntime.floatsOk`); the arithmetic lemmas that need that sign carry it
as a hypothesis. -/
structure Q where
  num : Int
  den : Int
deriving DecidableEq

/-- The rational of an integer. -/
def Q.ofInt (n : Int) : Q := Q.mk n 1

instance (n : Nat) : OfNat Q n := ⟨Q.ofInt (Int.ofNat n)⟩

instance : Add Q := ⟨fun a b => Q.mk (a.num * b.den + b.num * a.den) (a.den * b.den)⟩

instance : Mul Q := ⟨fun a b => Q.mk (a.num * b.num) (a.den * b.den)⟩

/-- `a ≤ b` by cross multiplication (the right order relation whenever both
denominators are positive). -/
def Q.le (a b : Q) : Prop := a.num * b.den ≤ b.num * a.den

/-- `a < b` by cross multiplication. -/
def Q.lt (a b : Q) : Prop := a.num * b.den < b.num * a.den

instance : LE Q := ⟨Q.le⟩

instance : LT Q := ⟨Q.lt⟩

instance (a b : Q) : Decidable (a ≤ b) :=
  show Decidable (a.num * b.den ≤ b.num * a.den) from inferInstance

instance (a b : Q) : Decidable (a < b) :=
  show Decidable (a.num * b.den < b.num * a.den) from inferInstance

/-- The value of a `Q` as a Mathlib rational. -/
def Q.toRat (a : Q) : ℚ := (a.num : ℚ) / (a.den : ℚ)

/-- `a / b` for two JS integers, as the unreduced rational. Faithful to JS
number division whenever `b ≠ 0`; the one division the code performs on a
potentially-zero divisor (goal percentage with a zero configured goal, which
yields `Infinity` in JS) is outside every claim. -/
def Q.divInt (a b : Int) : Q := Q.mk a b

/-- Models JS `Math.round` on `Q` (half-integers round toward +∞):
`⌊q + 1/2⌋ = ⌊(2 num + den) / (2 den)⌋`, by floor division. -/
def jsRound (q : Q) : Int :=
  Int.fdiv (2 * q.num + q.den) (2 * q.den)

/-- A JS `Date` as the aggregation code observes one: `getTime()` in
milliseconds, `getMonth()` (0–11) and `getFullYear()`. -/
structure JsDate where
  time : Int
  month : Int
  year : Int
deriving DecidableEq

/-- The fixed "now" reference. `weekStartTime` is the value the source derives
from `now` by `startOfWeek.setDate(now.getDate() - now.getDay());
startOfWeek.setHours(0,0,0,0)` (start of the current Sunday-aligned week at
local midnight): the calendar arithmetic the JS `Date` runtime performs there
is modelled by carrying the derived quantity as part of the reference. -/
structure NowRef where
  time : Int
  month : Int
  year : Int
  weekStartTime : Int
deriving DecidableEq

/-- The JS runtime primitives the code applies to strings and numbers.
`newDate` models the `new Date(string)` constructor (`none` = Invalid Date),
`parseFloat` the global `parseFloat` (`none` = `NaN`), and `toLocaleString`
the locale-dependent `Number.prototype.toLocaleString`. -/
structure JsRuntime where
  newDate : String → Option JsDate
  parseFloat : String → Option Q
  toLocaleString : Q → String

/-- Every number the runtime's `parseFloat` produces has a positive
denominator, as every finite IEEE double has. -/
def JsRuntime.floatsOk (rt : JsRuntime) : Prop :=
  ∀ s q, rt.parseFloat s = some q → 0 < q.den

/-- Models JS `x || d` for a nullable string `x`: `null`/`undefined` and the
empty string are falsy. -/
def jsOr (x : Option String) (d : String) : String :=
  match x with
  | none => d
  | some s => if s = "" then d else s

/-- Models JS `x || null` for a nullable string: the empty string collapses
to `null`. -/
def jsOrNull (x : Option String) : Option String :=
  match x with
  | none => none
  | some s => if s = "" then none else some s

/-- Models JS `x || y || null` for nullable strings. -/
def jsOrOpt (x y : Option String) : Option String :=
  match jsOrNull x with
  | some s => some s
  | none => jsOrNull y

/-- One entry of a `personsAndTeams` list inside a person column's raw JSON
value. `id` is modelled as an integer (its JS truthiness test is `id ≠ 0`). -/
structure PersonRef where
  id : Int
  kind : String
deriving DecidableEq

/-- One entry of a `linkedPulseIds` list inside a board-relation column's raw
JSON value. -/
structure LinkedPulse where
  linkedPulseId : Int
deriving DecidableEq

/-- Decoded form of a column's raw JSON `value` string: the two optional
properties the code reads after `JSON.parse`, or `malformed` when
`JSON.parse` throws. An absent property is `none`. -/
inductive JsonValue where
  | obj (personsAndTeams : Option (List PersonRef)) (linkedPulseIds : Option (List LinkedPulse))
  | malformed
deriving DecidableEq

/-- One column value of a Monday item: the column id, the display `text`
(`none` = null) and the raw `value` (`none` = null/undefined/empty, otherwise
its decoded JSON). -/
structure ColumnValue where
  id : String
  text : Option String
  value : Option JsonValue
deriving DecidableEq

/-- One item (deal record) fetched from the deals board. -/
structure MondayItem where
  id : String
  name : String
  column_values : List ColumnValue
deriving DecidableEq

/-- One user of the Monday directory. -/
structure MondayUser where
  id : String
  name : String
  photo_thumb : Option String
deriving DecidableEq

/-- Display info for a Solutions Engineer resolved from a scope item. -/
structure SEInfo where
  name : String
  initials : String
  color : String
  photoUrl : Option String
deriving DecidableEq

/-- Lookup in an insertion-ordered association list, modelling `Map.get` /
`Map.has` (keys are unique by construction of `mapSet`). -/
def mapFind {κ β : Type} [DecidableEq κ] (k : κ) : List (κ × β) → Option β
  | [] => none
  | (k', v) :: rest => if k' = k then some v else mapFind k rest

/-- Models `Map.set`: replace in place when the key exists, append otherwise
(JS `Map` iterates in insertion order). -/
def mapSet {κ β : Type} [DecidableEq κ] (k : κ) (v : β) : List (κ × β) → List (κ × β)
  | [] => [(k, v)]
  | (k', v') :: rest => if k' = k then (k, v) :: rest else (k', v') :: mapSet k v rest

/-- Models mutating the object stored under key `k` (`map.get(k)!` followed by
field updates): apply `f` to the first entry with key `k`, in place. -/
def mapModify {κ β : Type} [DecidableEq κ] (k : κ) (f : β → β) : List (κ × β) → List (κ × β)
  | [] => []
  | (k', v) :: rest => if k' = k then (k', f v) :: rest else (k', v) :: mapModify k f rest

/-- Insert `a` into `l` before the first element `b` with `le a b`
(the insertion step of a stable sort). -/
def insertLe {α : Type} (le : α → α → Bool) (a : α) : List α → List α
  | [] => [a]
  | b :: l => if le a b then a :: b :: l else b :: insertLe le a l

/-- Stable insertion sort by the boolean relation `le`, modelling
`Array.prototype.sort` with a comparator (the comparators in the source are
all of the form `(a, b) => b.key - a.key`, i.e. descending by a numeric key,
for which `le a b := key b ≤ key a`). -/
def sortLe {α : Type} (le : α → α → Bool) : List α → List α
  | [] => []
  | a :: l => insertLe le a (sortLe le l)

/-- `list.map` with the element index, also modelling the source's
`repColorIndex++` counter (the counter starts at `i` and increments once per
produced element). -/
def mapWithCounter {α β : Type} (g : Nat → α → β) : Nat → List α → List β
  | _, [] => []
  | i, a :: l => g i a :: mapWithCounter g (i + 1) l

/-- Models JS `String.prototype.split` with a one-character separator, on
character lists (`"".split(s)` is `[""]`, adjacent separators yield empty
pieces). -/
def splitOnChar (sep : Char) : List Char → List (List Char)
  | [] => [[]]
  | c :: cs =>
    let r := splitOnChar sep cs
    if c = sep then [] :: r
    else (c :: r.headD []) :: r.tail

/-- Models JS `String.prototype.trim` on character lists: strip leading and
trailing whitespace. -/
def trimChars (cs : List Char) : List Char :=
  ((cs.dropWhile Char.isWhitespace).reverse.dropWhile Char.isWhitespace).reverse

/-- Color palette for sales reps (`REP_COLORS`). -/
def REP_COLORS : List String :=
  ["#8B5CF6", "#14B8A6", "#F472B6", "#F59E0B",
   "#3B82F6", "#EC4899", "#06B6D4", "#84CC16",
   "#EF4444", "#6366F1", "#10B981", "#F97316"]

/-- `getInitials`: split on single spaces, first character of each part,
joined, uppercased, first two characters. A part with no first character
contributes nothing, as `undefined` does under `Array.prototype.join`. -/
def getInitials (name : String) : String :=
  String.mk (((((splitOnChar ' ' name.toList).map (fun part => part.take 1)).flatten).map
    Char.toUpper).take 2)

/-- `getRepColor`: palette color by index, modulo the palette size. -/
def getRepColor (index : Nat) : String :=
  REP_COLORS.getD (index % REP_COLORS.length) ""

/-- `parseDate`: falsy input (null or empty string) gives null, otherwise the
runtime's `new Date` parse (null when the result is an Invalid Date). -/
def parseDate (rt : JsRuntime) (dateStr : Option String) : Option JsDate :=
  match dateStr with
  | none => none
  | some s => if s = "" then none else rt.newDate s

/-- `isCurrentMonth`: same calendar month and year as `now`. -/
def isCurrentMonth (now : NowRef) (date : JsDate) : Bool :=
  date.month = now.month && date.year = now.year

/-- `isLastMonth`: same month and year as `new Date(now.getFullYear(),
now.getMonth() - 1, 1)`; the JS `Date` constructor normalizes the month by
carrying into the year (December of the previous year when `now` is in
January). -/
def isLastMonth (now : NowRef) (date : JsDate) : Bool :=
  let mm : Int := now.month - 1
  date.month = mm.emod 12 && date.year = now.year + mm.fdiv 12

/-- `isThisWeek`: on or after the start of the current Sunday-aligned week. -/
def isThisWeek (now : NowRef) (date : JsDate) : Bool :=
  now.weekStartTime ≤ date.time

/-- `isLastWeek`: in the seven days (`setDate(-7)`) before the start of the
current week. -/
def isLastWeek (now : NowRef) (date : JsDate) : Bool :=
  now.weekStartTime - 7 * 86400000 ≤ date.time && date.time < now.weekStartTime

/-- `formatTimestamp`: relative-time display string for a date against the
fixed `now` reference (`Math.floor` of the millisecond difference over an
hour resp. a day; `Int.fdiv` is floor division). -/
def formatTimestamp (now : NowRef) (date : JsDate) : String :=
  let diffMs := now.time - date.time
  let diffHours := diffMs.fdiv (1000 * 60 * 60)
  let diffDays := diffMs.fdiv (1000 * 60 * 60 * 24)
  if diffHours < 1 then "Just now"
  else if diffHours < 24 then
    let plural := if diffHours > 1 then "s" else ""
    toString diffHours ++ " hour" ++ plural ++ " ago"
  else if diffDays = 1 then "1 day ago"
  else toString diffDays ++ " days ago"

/-- One deal recorded under a rep (`rep.deals` entries). -/
structure Deal where
  company : String
  value : Q
  dateSigned : JsDate
deriving DecidableEq

/-- Per-owner accumulator record stored in `repMap`. -/
structure RepData where
  name : String
  photoUrl : Option String
  currentMonth : Q
  currentMonthCW : Q
  currentMonthAE : Q
  lastMonth : Q
  deals : List Deal
deriving DecidableEq

/-- One candidate recorded in `recentDeals` for the top-deals widget and the
news feed. -/
structure RecentDeal where
  company : String
  value : Q
  repName : String
  dateSigned : JsDate
  isThisWeek : Bool
  isLastWeek : Bool
  scopeIds : List Int
deriving DecidableEq

/-- The mutable state of `processData`'s record loop. -/
structure ProcState where
  repMap : List (String × RepData)
  repPhotoMap : List (String × String)
  cwSourcedCurrentMonth : Q
  aeSourcedCurrentMonth : Q
  recentDeals : List RecentDeal
deriving DecidableEq

/-- One leaderboard entry of the summary payload. -/
structure SalesRep where
  repId : String
  name : String
  initials : String
  color : String
  photoUrl : Option String
  currentMonth : Int
  currentMonthCW : Int
  currentMonthAE : Int
  lastMonth : Int
deriving DecidableEq

/-- Owner display info attached to highlights and news entries. -/
structure RepInfo where
  name : String
  initials : String
  color : String
  photoUrl : Option String
deriving DecidableEq

/-- One highlight deal of the summary payload. -/
structure TopDeal where
  company : String
  value : Int
  rep : RepInfo
  se : Option SEInfo
  scopeId : Option String
deriving DecidableEq

/-- The two highlight windows of the summary payload. -/
structure TopDeals where
  thisWeek : Option TopDeal
  lastWeek : Option TopDeal
deriving DecidableEq

/-- A goal-tracking target of the summary payload. -/
structure Target where
  current : Int
  goal : Int
  label : String
deriving DecidableEq

/-- One news-feed entry of the summary payload (real entries carry
`id = index + 1`; the synthetic team-milestone entry carries `id = 0`). -/
structure NewsEntry where
  id : Nat
  type : String
  emoji : String
  headline : String
  body : String
  timestamp : String
  rep : Option RepInfo
deriving DecidableEq

/-- The complete summary payload (`DashboardData`). -/
structure DashboardData where
  salesReps : List SalesRep
  topDeals : TopDeals
  cwTarget : Target
  aeTarget : Target
  news : List NewsEntry
deriving DecidableEq

/-- The photo-URL extraction from the `deal_owner` column (`processData`,
lines 1710–1730): when the column has a raw value and no photo is recorded
yet for `repName`, decode `personsAndTeams`, take its first person entry
(truthy id, kind exactly "person"), look the id up in the user directory and
record a truthy (non-empty) `photo_thumb`. Parse failures are ignored. -/
def updatePhotoMap (userMap : List (String × MondayUser)) (repName : String)
    (ownerValue : Option JsonValue) (repPhotoMap : List (String × String)) :
    List (String × String) :=
  match ownerValue with
  | none => repPhotoMap
  | some v =>
    if (mapFind repName repPhotoMap).isSome then repPhotoMap
    else
      match v with
      | JsonValue.obj (some (person :: _)) _ =>
        if person.id ≠ 0 ∧ person.kind = "person" then
          match (mapFind (toString person.id) userMap).bind (fun u => u.photo_thumb) with
          | some url => if url = "" then repPhotoMap else mapSet repName url repPhotoMap
          | none => repPhotoMap
        else repPhotoMap
      | _ => repPhotoMap

/-- The per-owner accumulator update for one parsed deal (`processData`,
lines 1743–1758): current-month values go to `currentMonth` and to exactly
one of `currentMonthAE` (label exactly "AE Sourced") or `currentMonthCW`
(any other label); prior-month values go to `lastMonth`; the deal is appended
to the owner's deal list either way. -/
def updateRepData (now : NowRef) (d : JsDate) (dealValue : Q)
    (leadSourceType companyName : String) (rep : RepData) : RepData :=
  let rep1 :=
    if isCurrentMonth now d then
      if leadSourceType = "AE Sourced" then
        { rep with currentMonth := rep.currentMonth + dealValue,
                   currentMonthAE := rep.currentMonthAE + dealValue }
      else
        { rep with currentMonth := rep.currentMonth + dealValue,
                   currentMonthCW := rep.currentMonthCW + dealValue }
    else if isLastMonth now d then
      { rep with lastMonth := rep.lastMonth + dealValue }
    else rep
  { rep1 with deals := rep1.deals ++ [Deal.mk companyName dealValue d] }

/-- The scope signal of a deal (`processData`, lines 1763–1778): `hasScope`
is set by a non-blank scope text or by a non-empty decoded `linkedPulseIds`
list, which also supplies `scopeIds`; a malformed raw value is ignored. -/
def scopeSignal (scopeCol : Option ColumnValue) : Bool × List Int :=
  let hasScopeText :=
    match scopeCol.bind (fun c => c.text) with
    | some s => s ≠ "" && ¬ String.mk (trimChars s.toList) = ""
    | none => false
  match scopeCol.bind (fun c => c.value) with
  | some (JsonValue.obj _ (some (p :: ps))) =>
    (true, ((p :: ps).map (fun q => q.linkedPulseId)))
  | _ => (hasScopeText, [])

/-- One iteration of the record loop of `processData` (lines 1695–1792). -/
def processItem (rt : JsRuntime) (now : NowRef) (topDealsMinThreshold : Int)
    (userMap : List (String × MondayUser)) (st : ProcState) (item : MondayItem) :
    ProcState :=
  let ownerCol := item.column_values.find? (fun c => c.id = "deal_owner")
  let valueCol := item.column_values.find? (fun c => c.id = "deal_value")
  let dateSignedCol := item.column_values.find? (fun c => c.id = "date4__1")
  let leadSourceCol := item.column_values.find? (fun c => c.id = "color_mm01fk8y")
  let scopeCol := item.column_values.find? (fun c => c.id = "link_to___scopes____1")
  let repName := jsOr (ownerCol.bind (fun c => c.text)) "Unknown"
  -- `parseFloat(valueCol?.text || '0') || 0`: a NaN parse (modelled `none`)
  -- collapses to 0; `|| 0` also maps a parsed ±0 to the literal 0, the same
  -- number.
  let dealValue : Q :=
    match rt.parseFloat (jsOr (valueCol.bind (fun c => c.text)) "0") with
    | none => Q.ofInt 0
    | some v => v
  let dateSigned := parseDate rt (dateSignedCol.bind (fun c => c.text))
  let leadSourceType := jsOr (leadSourceCol.bind (fun c => c.text)) ""
  let repPhotoMap := updatePhotoMap userMap repName (ownerCol.bind (fun c => c.value)) st.repPhotoMap
  let companyName := String.mk (trimChars ((splitOnChar '\n' item.name.toList).headD []))
  match dateSigned with
  | none =>
    -- `if (!dateSigned) continue;`
    ProcState.mk st.repMap repPhotoMap st.cwSourcedCurrentMonth st.aeSourcedCurrentMonth st.recentDeals
  | some d =>
    let repMap0 :=
      if (mapFind repName st.repMap).isSome then st.repMap
      else mapSet repName
        (RepData.mk repName (jsOrNull (mapFind repName repPhotoMap)) 0 0 0 0 []) st.repMap
    let cw' :=
      if isCurrentMonth now d ∧ ¬ leadSourceType = "AE Sourced" then
        st.cwSourcedCurrentMonth + dealValue
      else st.cwSourcedCurrentMonth
    let ae' :=
      if isCurrentMonth now d ∧ leadSourceType = "AE Sourced" then
        st.aeSourcedCurrentMonth + dealValue
      else st.aeSourcedCurrentMonth
    let repMap1 := mapModify repName (updateRepData now d dealValue leadSourceType companyName) repMap0
    let scope := scopeSignal scopeCol
    let meetsThreshold := Q.ofInt topDealsMinThreshold ≤ dealValue
    let recentDeals' :=
      if (isThisWeek now d ∨ isLastWeek now d) ∧ scope.1 ∧ meetsThreshold then
        st.recentDeals ++
          [RecentDeal.mk companyName dealValue repName d (isThisWeek now d) (isLastWeek now d) scope.2]
      else st.recentDeals
    ProcState.mk repMap1 repPhotoMap cw' ae' recentDeals'

/-- The record loop of `processData` over all items, from the empty state. -/
def processItems (rt : JsRuntime) (now : NowRef) (topDealsMinThreshold : Int)
    (userMap : List (String × MondayUser)) (items : List MondayItem) : ProcState :=
  items.foldl (processItem rt now topDealsMinThreshold userMap)
    (ProcState.mk [] [] 0 0 [])

/-- `name.replace(/\s+/g, '_')`: each maximal whitespace run becomes one
underscore. -/
def replaceWsRuns : Bool → List Char → List Char
  | _, [] => []
  | prevWs, c :: cs =>
    if c.isWhitespace then
      (if prevWs then [] else ['_']) ++ replaceWsRuns true cs
    else c :: replaceWsRuns false cs

/-- The `repId` of a leaderboard entry:
`rep.name.replace(/\s+/g, '_').toLowerCase()`. -/
def repIdOf (name : String) : String :=
  String.mk ((replaceWsRuns false name.toList).map Char.toLower)

/-- The leaderboard construction (`processData`, lines 1794–1811): owners with
a positive current- or prior-month total, sorted descending by current-month
total, truncated to 10, mapped to display entries with rounded fields and a
palette color by position. -/
def buildSalesReps (st : ProcState) : List SalesRep :=
  let reps := st.repMap.map (fun e => e.2)
  mapWithCounter
    (fun repColorIndex rep =>
      SalesRep.mk (repIdOf rep.name) rep.name (getInitials rep.name)
        (getRepColor repColorIndex)
        (jsOrOpt rep.photoUrl (mapFind rep.name st.repPhotoMap))
        (jsRound rep.currentMonth) (jsRound rep.currentMonthCW)
        (jsRound rep.currentMonthAE) (jsRound rep.lastMonth))
    0
    ((sortLe (fun a b => b.currentMonth ≤ a.currentMonth)
        (reps.filter (fun rep => rep.currentMonth > 0 || rep.lastMonth > 0))).take 10)

/-- `getRepInfo`: display info from the leaderboard when the owner is on it,
otherwise a gray fallback with the photo map's entry. -/
def getRepInfo (salesReps : List SalesRep) (repPhotoMap : List (String × String))
    (repName : String) : RepInfo :=
  match salesReps.find? (fun r => r.name = repName) with
  | some rep => RepInfo.mk rep.name rep.initials rep.color rep.photoUrl
  | none => RepInfo.mk repName (getInitials repName) "#6B7280" (jsOrNull (mapFind repName repPhotoMap))

/-- `getSEInfo`: the first linked scope id with an entry in the scope→SE
lookup. -/
def getSEInfo (scopeSEMap : List (Int × SEInfo)) : List Int → Option SEInfo
  | [] => none
  | scopeId :: rest =>
    match mapFind scopeId scopeSEMap with
    | some se => some se
    | none => getSEInfo scopeSEMap rest

/-- One emitted highlight deal (`processData`, lines 1834–1847). -/
def mkTopDeal (scopeSEMap : List (Int × SEInfo)) (salesReps : List SalesRep)
    (repPhotoMap : List (String × String)) (d : RecentDeal) : TopDeal :=
  TopDeal.mk d.company (jsRound d.value) (getRepInfo salesReps repPhotoMap d.repName)
    (getSEInfo scopeSEMap d.scopeIds)
    (match d.scopeIds with
     | [] => none
     | i :: _ => some (toString i))

/-- The highlight construction (`processData`, lines 1813–1848): per window,
filter the candidates, sort descending by value, and emit the head if any. -/
def buildTopDeals (scopeSEMap : List (Int × SEInfo)) (salesReps : List SalesRep)
    (repPhotoMap : List (String × String)) (recentDeals : List RecentDeal) : TopDeals :=
  let thisWeekDeals := sortLe (fun a b => b.value ≤ a.value)
    (recentDeals.filter (fun d => d.isThisWeek))
  let lastWeekDeals := sortLe (fun a b => b.value ≤ a.value)
    (recentDeals.filter (fun d => d.isLastWeek))
  TopDeals.mk
    (match thisWeekDeals with
     | [] => none
     | d :: _ => some (mkTopDeal scopeSEMap salesReps repPhotoMap d))
    (match lastWeekDeals with
     | [] => none
     | d :: _ => some (mkTopDeal scopeSEMap salesReps repPhotoMap d))

/-- One real news entry (`processData`, lines 1854–1862); `index` is the
position in the capped, date-sorted candidate list. -/
def mkNewsEntry (rt : JsRuntime) (now : NowRef) (salesReps : List SalesRep)
    (repPhotoMap : List (String × String)) (index : Nat) (deal : RecentDeal) : NewsEntry :=
  NewsEntry.mk (index + 1) "win"
    (if deal.value ≥ 10000 then "🔥" else "🎉")
    (String.mk ((splitOnChar ' ' deal.repName.toList).headD []) ++ " closes " ++ deal.company ++
      " for $" ++ rt.toLocaleString deal.value ++ "!")
    (if deal.value ≥ 10000 then "Big deal alert!" else "Another one in the books.")
    (formatTimestamp now deal.dateSigned)
    (some (getRepInfo salesReps repPhotoMap deal.repName))

/-- The leaderboard's summed (rounded) current-month totals
(`salesReps.reduce((sum, rep) => sum + rep.currentMonth, 0)`). -/
def totalCurrentMonthOf (salesReps : List SalesRep) : Int :=
  salesReps.foldl (fun sum rep => sum + rep.currentMonth) 0

/-- `Math.round((totalCurrentMonth / monthlyGoal) * 100)`. -/
def teamGoalPercentage (salesReps : List SalesRep) (monthlyGoal : Int) : Int :=
  jsRound (Q.divInt (totalCurrentMonthOf salesReps) monthlyGoal * Q.ofInt 100)

/-- The synthetic team-milestone news entry (`processData`, lines 1869–1877). -/
def milestoneEntry (rt : JsRuntime) (goalPercentage totalCurrentMonth : Int) : NewsEntry :=
  NewsEntry.mk 0 "win" "📊"
    ("Team hits " ++ toString goalPercentage ++ "% of monthly goal!")
    ("$" ++ rt.toLocaleString (Q.ofInt totalCurrentMonth) ++ " closed this month.")
    "Today"
    (some (RepInfo.mk "Team" "🎯" "#8B5CF6" none))

/-- The news-feed construction (`processData`, lines 1850–1878 and the final
`news.slice(0, 6)`): candidates sorted by signed date descending, capped to 8,
mapped to entries; a milestone entry is prepended when the rounded goal
percentage exceeds 100; the result is capped to 6. -/
def buildNews (rt : JsRuntime) (now : NowRef) (monthlyGoal : Int)
    (salesReps : List SalesRep) (repPhotoMap : List (String × String))
    (recentDeals : List RecentDeal) : List NewsEntry :=
  let news := mapWithCounter (mkNewsEntry rt now salesReps repPhotoMap) 0
    ((sortLe (fun a b => b.dateSigned.time ≤ a.dateSigned.time) recentDeals).take 8)
  let totalCurrentMonth := totalCurrentMonthOf salesReps
  let goalPercentage := teamGoalPercentage salesReps monthlyGoal
  let news2 :=
    if goalPercentage > 100 then
      milestoneEntry rt goalPercentage totalCurrentMonth :: news
    else news
  news2.take 6

/-- `processData` (lines 1668–1895): the aggregation engine, as a pure
function of the runtime, the fixed `now` reference, the record list, the
settings (monthly goal and minimum top-deal threshold), the user directory
and the scope→SE lookup. -/
def processData (rt : JsRuntime) (now : NowRef) (items : List MondayItem)
    (monthlyGoal : Int) (topDealsMinThreshold : Int)
    (userMap : List (String × MondayUser)) (scopeSEMap : List (Int × SEInfo)) :
    DashboardData :=
  let st := processItems rt now topDealsMinThreshold userMap items
  let salesReps := buildSalesReps st
  let topDeals := buildTopDeals scopeSEMap salesReps st.repPhotoMap st.recentDeals
  let news := buildNews rt now monthlyGoal salesReps st.repPhotoMap st.recentDeals
  DashboardData.mk salesReps topDeals
    (Target.mk (jsRound st.cwSourcedCurrentMonth) monthlyGoal "CW Sourced Target")
    (Target.mk (jsRound st.aeSourcedCurrentMonth) monthlyGoal "AE Sourced Target")
    news

/-! ## The narrative-enrichment endpoint (`generate-news` handler)

Model of the handler in the unnamed API file that asks an external text model
to rewrite news copy. The HTTP/SDK layer is modelled by its observable
outcome: `UpstreamResult.throws` stands for any thrown exception of the
upstream call (transport failure or non-2xx response — the SDK throws on
both), `UpstreamResult.ok` for a 2xx response with its text content.
`JSON.parse` of the extracted array is modelled by a `parseArticles`
parameter (`none` = the parse throws). The `error` message string carried by
the catch-all response (`error.message`) is abstracted to a fixed string:
no claim inspects it. -/

/-- One deal fact sent to the enrichment endpoint (`DealInfo`). -/
structure DealInfo where
  repName : String
  company : String
  value : Q
  timestamp : String
deriving DecidableEq

/-- Optional team progress sent alongside the deals (`teamStats`). -/
structure TeamStats where
  totalThisMonth : Q
  goalPercentage : Q
deriving DecidableEq

/-- The request body `{deals, teamStats}`; the whole body is `none` when
destructuring it throws (e.g. a null body), which the catch-all turns into a
successful empty response. -/
structure NewsReqBody where
  deals : Option (List DealInfo)
  teamStats : Option TeamStats
deriving DecidableEq

/-- One article object of the JSON array the text model returns. -/
structure GenArticle where
  dealIndex : Option Int
  emoji : Option String
  headline : Option String
  body : Option String
deriving DecidableEq

/-- The upstream text-model call: it either throws (transport error, non-2xx
status) or yields the response text. -/
inductive UpstreamResult where
  | throws
  | ok (responseText : String)
deriving DecidableEq

/-- One enriched news article of the endpoint's response (`NewsArticle`). -/
structure NewsArticle where
  id : Nat
  type : String
  emoji : String
  headline : Option String
  body : Option String
  timestamp : String
  rep : Option RepInfo
deriving DecidableEq

/-- The endpoint's HTTP response: status code, the `news` array when one is
emitted, and the `error` field when one is emitted. -/
structure NewsResponse where
  status : Nat
  news : Option (List NewsArticle)
  error : Option String
deriving DecidableEq

/-- The prefix of `cs` up to and including its last `']'`, or `none` when
`cs` has no `']'`. -/
def upToLastRB : List Char → Option (List Char)
  | [] => none
  | c :: rest =>
    match upToLastRB rest with
    | some t => some (c :: t)
    | none => if c = ']' then some [c] else none

/-- `responseText.match(/\[[\s\S]*\]/)`: the span from the first `'['` to the
last `']'` after it (the greedy star), or `none` when no such span exists. -/
def jsonMatchGo : List Char → Option (List Char)
  | [] => none
  | c :: rest =>
    if c = '[' then (upToLastRB rest).map (fun t => c :: t)
    else jsonMatchGo rest

/-- String form of `jsonMatchGo`. -/
def jsonMatch (s : String) : Option String :=
  (jsonMatchGo s.toList).map String.mk

/-- The mapping of one generated article back to a full news article
(lines 136–169 of the handler): `article.dealIndex ?? index` selects the
deal; a missing deal with team stats present yields the team-stats article;
a missing deal without team stats yields `null` (filtered out). -/
def mapGenArticle (deals : List DealInfo) (teamStats : Option TeamStats)
    (index : Nat) (article : GenArticle) : Option NewsArticle :=
  let dealIndex : Int := article.dealIndex.getD (index : Int)
  let deal : Option DealInfo :=
    if 0 ≤ dealIndex ∧ dealIndex < (deals.length : Int) then
      deals.get? dealIndex.toNat
    else none
  match deal with
  | none =>
    match teamStats with
    | some _ =>
      some (NewsArticle.mk index "stats" (jsOr article.emoji "📊")
        article.headline article.body "Today"
        (some (RepInfo.mk "Team" "🎯" "#8B5CF6" none)))
    | none => none
  | some deal =>
    some (NewsArticle.mk index "win"
      (jsOr article.emoji (if deal.value ≥ 10000 then "🔥" else "🎉"))
      article.headline article.body deal.timestamp
      -- the initials expression of line 164 is the body of getInitials
      (some (RepInfo.mk deal.repName (getInitials deal.repName) "#8B5CF6" none)))

/-- Truthiness test of the configured API key (`if (!anthropicKey)`): absent
or empty. -/
def keyMissing (anthropicKey : Option String) : Bool :=
  match anthropicKey with
  | none => true
  | some s => s = ""

/-- The enrichment endpoint handler as a function of its observable inputs.
The entire body runs inside one `try`; the `catch` answers 200 with an empty
news list (and an error field), so a thrown upstream call or a throwing
`JSON.parse` still yields a successful response — but the explicit
`return res.status(500)` on a response text with no JSON array span does
not. -/
def newsHandler (parseArticles : String → Option (List GenArticle))
    (method : String) (anthropicKey : Option String)
    (body : Option NewsReqBody) (upstream : UpstreamResult) : NewsResponse :=
  if method = "OPTIONS" then NewsResponse.mk 200 none none
  else if ¬ method = "POST" then NewsResponse.mk 405 none (some "Method not allowed")
  else if keyMissing anthropicKey then
    NewsResponse.mk 200 (some []) none
  else
    match body with
    | none => NewsResponse.mk 200 (some []) (some "Unknown error")
    | some b =>
      match b.deals with
      | none => NewsResponse.mk 200 (some []) none
      | some deals =>
        if deals.length = 0 then NewsResponse.mk 200 (some []) none
        else
          match upstream with
          | UpstreamResult.throws => NewsResponse.mk 200 (some []) (some "Unknown error")
          | UpstreamResult.ok responseText =>
            match jsonMatch responseText with
            | none => NewsResponse.mk 500 none (some "Failed to parse AI response")
            | some matched =>
              match parseArticles matched with
              | none => NewsResponse.mk 200 (some []) (some "Unknown error")
              | some generatedArticles =>
                NewsResponse.mk 200
                  (some ((mapWithCounter (fun i a => mapGenArticle deals b.teamStats i a) 0
                    generatedArticles).filterMap id))
                  none

/-! ## Arithmetic bridge: `Q` versus Mathlib's rationals -/

theorem Q.add_def (a b : Q) :
    a + b = Q.mk (a.num * b.den + b.num * a.den) (a.den * b.den) := rfl

theorem Q.le_def (a b : Q) : (a ≤ b) = (a.num * b.den ≤ b.num * a.den) := rfl

theorem Q.lt_def (a b : Q) : (a < b) = (a.num * b.den < b.num * a.den) := rfl

theorem Q.toRat_ofInt (n : Int) : (Q.ofInt n).toRat = (n : ℚ) := by
  simp [Q.toRat, Q.ofInt]

theorem Q.den_ofInt (n : Int) : (Q.ofInt n).den = 1 := rfl

theorem Q.den_add_pos {a b : Q} (ha : 0 < a.den) (hb : 0 < b.den) : 0 < (a + b).den :=
  mul_pos ha hb

theorem Q.toRat_add {a b : Q} (ha : 0 < a.den) (hb : 0 < b.den) :
    (a + b).toRat = a.toRat + b.toRat := by
  have ha' : ((a.den : ℚ)) ≠ 0 := by exact_mod_cast ha.ne'
  have hb' : ((b.den : ℚ)) ≠ 0 := by exact_mod_cast hb.ne'
  simp only [Q.add_def, Q.toRat]
  push_cast
  field_simp

theorem Q.le_iff_toRat {a b : Q} (ha : 0 < a.den) (hb : 0 < b.den) :
    a ≤ b ↔ a.toRat ≤ b.toRat := by
  have ha' : (0 : ℚ) < (a.den : ℚ) := by exact_mod_cast ha
  have hb' : (0 : ℚ) < (b.den : ℚ) := by exact_mod_cast hb
  rw [Q.le_def, Q.toRat, Q.toRat, div_le_div_iff ha' hb']
  constructor
  · intro h
    exact_mod_cast h
  · intro h
    exact_mod_cast h

theorem Q.lt_iff_toRat {a b : Q} (ha : 0 < a.den) (hb : 0 < b.den) :
    a < b ↔ a.toRat < b.toRat := by
  have ha' : (0 : ℚ) < (a.den : ℚ) := by exact_mod_cast ha
  have hb' : (0 : ℚ) < (b.den : ℚ) := by exact_mod_cast hb
  rw [Q.lt_def, Q.toRat, Q.toRat, div_lt_div_iff ha' hb']
  constructor
  · intro h
    exact_mod_cast h
  · intro h
    exact_mod_cast h

theorem Q.le_total' (a b : Q) : a ≤ b ∨ b ≤ a := by
  rw [Q.le_def, Q.le_def]
  exact le_total _ _

theorem Q.le_trans' {a b c : Q} (ha : 0 < a.den) (hb : 0 < b.den) (hc : 0 < c.den)
    (hab : a ≤ b) (hbc : b ≤ c) : a ≤ c :=
  (Q.le_iff_toRat ha hc).mpr
    (le_trans ((Q.le_iff_toRat ha hb).mp hab) ((Q.le_iff_toRat hb hc).mp hbc))

theorem jsRound_eq_floor {q : Q} (h : 0 < q.den) : jsRound q = ⌊q.toRat + 1 / 2⌋ := by
  have h2 : (0 : Int) < 2 * q.den := by omega
  have hcast : ((2 * q.den).toNat : ℚ) = ((2 * q.den : ℤ) : ℚ) := by
    exact_mod_cast congrArg (fun z : ℤ => (z : ℚ)) (Int.toNat_of_nonneg h2.le)
  have hfrac : q.toRat + 1 / 2 = ((2 * q.num + q.den : ℤ) : ℚ) / (((2 * q.den).toNat : ℕ) : ℚ) := by
    rw [hcast]
    have hden : ((q.den : ℚ)) ≠ 0 := by exact_mod_cast h.ne'
    simp only [Q.toRat]
    push_cast
    field_simp
    ring
  rw [hfrac, Rat.floor_intCast_div_natCast]
  rw [jsRound, Int.fdiv_eq_ediv _ h2.le]
  rw [Int.toNat_of_nonneg h2.le]

theorem jsRound_mono {a b : Q} (ha : 0 < a.den) (hb : 0 < b.den) (h : a ≤ b) :
    jsRound a ≤ jsRound b := by
  rw [jsRound_eq_floor ha, jsRound_eq_floor hb]
  have := (Q.le_iff_toRat ha hb).mp h
  exact Int.floor_le_floor (by linarith)

/-- Rounding each side of an exact split `cm = cw + ae` moves the sum by at
most one. -/
theorem jsRound_split_bound {cw ae cm : Q} (hcw : 0 < cw.den) (hae : 0 < ae.den)
    (hcm : 0 < cm.den) (h : cm.toRat = cw.toRat + ae.toRat) :
    |jsRound cw + jsRound ae - jsRound cm| ≤ 1 := by
  rw [jsRound_eq_floor hcw, jsRound_eq_floor hae, jsRound_eq_floor hcm, h]
  set x := cw.toRat with hx
  set y := ae.toRat with hy
  have h1 : ((⌊x + 1 / 2⌋ : ℤ) : ℚ) ≤ x + 1 / 2 := Int.floor_le _
  have h2 : x + 1 / 2 < (⌊x + 1 / 2⌋ : ℤ) + 1 := Int.lt_floor_add_one _
  have h3 : ((⌊y + 1 / 2⌋ : ℤ) : ℚ) ≤ y + 1 / 2 := Int.floor_le _
  have h4 : y + 1 / 2 < (⌊y + 1 / 2⌋ : ℤ) + 1 := Int.lt_floor_add_one _
  have h5 : ((⌊x + y + 1 / 2⌋ : ℤ) : ℚ) ≤ x + y + 1 / 2 := Int.floor_le _
  have h6 : x + y + 1 / 2 < (⌊x + y + 1 / 2⌋ : ℤ) + 1 := Int.lt_floor_add_one _
  rw [abs_le]
  constructor
  · have hq : ((⌊x + 1 / 2⌋ + ⌊y + 1 / 2⌋ - ⌊x + y + 1 / 2⌋ : ℤ) : ℚ) > -2 := by
      push_cast
      linarith
    have h7 : (-2 : ℤ) < ⌊x + 1 / 2⌋ + ⌊y + 1 / 2⌋ - ⌊x + y + 1 / 2⌋ := by
      exact_mod_cast hq
    omega
  · have hq : ((⌊x + 1 / 2⌋ + ⌊y + 1 / 2⌋ - ⌊x + y + 1 / 2⌋ : ℤ) : ℚ) < 2 := by
      push_cast
      linarith
    have h7 : ⌊x + 1 / 2⌋ + ⌊y + 1 / 2⌋ - ⌊x + y + 1 / 2⌋ < (2 : ℤ) := by
      exact_mod_cast hq
    omega

/-! ## Sorting and indexed-map lemmas -/

theorem mem_insertLe {α : Type} {le : α → α → Bool} {a x : α} :
    ∀ {l : List α}, x ∈ insertLe le a l ↔ x = a ∨ x ∈ l
  | [] => by simp [insertLe]
  | b :: l => by
    by_cases h : le a b
    · simp [insertLe, h]
    · simp only [insertLe, h, if_neg, Bool.false_eq_true, if_false, List.mem_cons]
      rw [mem_insertLe (l := l)]
      tauto

theorem mem_sortLe {α : Type} {le : α → α → Bool} {x : α} :
    ∀ {l : List α}, x ∈ sortLe le l ↔ x ∈ l
  | [] => by simp [sortLe]
  | a :: l => by
    rw [sortLe, mem_insertLe, mem_sortLe (l := l), List.mem_cons]

theorem pairwise_insertLe {α : Type} {le : α → α → Bool}
    (htot : ∀ a b, le a b = true ∨ le b a = true)
    (htrans : ∀ a b c, le a b = true → le b c = true → le a c = true) (a : α) :
    ∀ {l : List α}, l.Pairwise (fun x y => le x y = true) →
      (insertLe le a l).Pairwise (fun x y => le x y = true)
  | [], _ => by simp [insertLe]
  | b :: l, h => by
    rcases List.pairwise_cons.mp h with ⟨hb, hl⟩
    by_cases hab : le a b
    · simp only [insertLe, hab, if_true]
      refine List.pairwise_cons.mpr ⟨?_, h⟩
      intro y hy
      rcases List.mem_cons.mp hy with rfl | hy
      · exact hab
      · exact htrans a b y hab (hb y hy)
    · simp only [insertLe, hab, Bool.false_eq_true, if_false]
      refine List.pairwise_cons.mpr ⟨?_, pairwise_insertLe htot htrans a hl⟩
      intro y hy
      rcases mem_insertLe.mp hy with heq | hy
      · rw [heq]
        rcases htot a b with h' | h'
        · exact absurd h' hab
        · exact h'
      · exact hb y hy

theorem pairwise_sortLe {α : Type} {le : α → α → Bool}
    (htot : ∀ a b, le a b = true ∨ le b a = true)
    (htrans : ∀ a b c, le a b = true → le b c = true → le a c = true) :
    ∀ (l : List α), (sortLe le l).Pairwise (fun x y => le x y = true)
  | [] => by simp [sortLe]
  | a :: l => pairwise_insertLe htot htrans a (pairwise_sortLe htot htrans l)

/-- The head of the sorted list is a member of the input and dominates every
member. -/
theorem sortLe_head_max {α : Type} {le : α → α → Bool}
    (htot : ∀ a b, le a b = true ∨ le b a = true)
    (htrans : ∀ a b c, le a b = true → le b c = true → le a c = true)
    {l : List α} {a : α} {t : List α} (he : sortLe le l = a :: t) :
    a ∈ l ∧ ∀ x ∈ l, le a x = true := by
  have hmem : a ∈ l := mem_sortLe.mp (he ▸ List.mem_cons_self a t)
  refine ⟨hmem, fun x hx => ?_⟩
  have hx' : x ∈ a :: t := he ▸ mem_sortLe.mpr hx
  rcases List.mem_cons.mp hx' with rfl | hx'
  · rcases htot x x with h' | h' <;> exact h'
  · have hp := pairwise_sortLe htot htrans l
    rw [he] at hp
    exact (List.pairwise_cons.mp hp).1 x hx'

theorem sortLe_eq_nil_iff {α : Type} {le : α → α → Bool} {l : List α} :
    sortLe le l = [] ↔ l = [] := by
  cases l with
  | nil => simp [sortLe]
  | cons a l =>
    simp only [sortLe, iff_false, List.cons_ne_nil, Ne]
    intro h
    have : a ∈ insertLe le a (sortLe le l) := mem_insertLe.mpr (Or.inl rfl)
    rw [h] at this
    exact absurd this (List.not_mem_nil a)

theorem mem_mapWithCounter {α β : Type} {g : Nat → α → β} {b : β} :
    ∀ {i : Nat} {l : List α}, b ∈ mapWithCounter g i l → ∃ j a, a ∈ l ∧ b = g j a
  | _, [], h => by simp [mapWithCounter] at h
  | i, a :: l, h => by
    rcases List.mem_cons.mp h with rfl | h'
    · exact ⟨i, a, List.mem_cons_self a l, rfl⟩
    · rcases mem_mapWithCounter h' with ⟨j, x, hx, rfl⟩
      exact ⟨j, x, List.mem_cons_of_mem a hx, rfl⟩

theorem mapWithCounter_take {α β : Type} (g : Nat → α → β) :
    ∀ (i : Nat) (l : List α) (n : Nat),
      (mapWithCounter g i l).take n = mapWithCounter g i (l.take n)
  | _, [], n => by simp [mapWithCounter]
  | i, a :: l, 0 => by simp [mapWithCounter]
  | i, a :: l, n + 1 => by
    simp only [mapWithCounter, List.take_succ_cons]
    rw [mapWithCounter_take g (i + 1) l n]

theorem length_mapWithCounter {α β : Type} (g : Nat → α → β) :
    ∀ (i : Nat) (l : List α), (mapWithCounter g i l).length = l.length
  | _, [] => rfl
  | i, a :: l => by
    simp only [mapWithCounter, List.length_cons]
    rw [length_mapWithCounter g (i + 1) l]

theorem pairwise_mapWithCounter {α β : Type} {R : α → α → Prop} {R' : β → β → Prop}
    {g : Nat → α → β} (hg : ∀ i j a b, R a b → R' (g i a) (g j b)) :
    ∀ {i : Nat} {l : List α}, l.Pairwise R → (mapWithCounter g i l).Pairwise R'
  | _, [], _ => List.Pairwise.nil
  | i, a :: l, h => by
    rcases List.pairwise_cons.mp h with ⟨ha, hl⟩
    refine List.pairwise_cons.mpr ⟨?_, pairwise_mapWithCounter hg hl⟩
    intro y hy
    rcases mem_mapWithCounter hy with ⟨j, x, hx, rfl⟩
    exact hg i j a x (ha x hx)

theorem mapFind_mapSet_self {κ β : Type} [DecidableEq κ] (k : κ) (v : β) :
    ∀ (m : List (κ × β)), mapFind k (mapSet k v m) = some v
  | [] => by simp [mapSet, mapFind]
  | (k', v') :: rest => by
    by_cases h : k' = k
    · simp [mapSet, mapFind, h]
    · simp only [mapSet, h, if_false, mapFind, if_neg h]
      exact mapFind_mapSet_self k v rest

theorem mapFind_mapSet_ne {κ β : Type} [DecidableEq κ] {k k' : κ} (v : β)
    (hne : ¬ k = k') : ∀ (m : List (κ × β)), mapFind k' (mapSet k v m) = mapFind k' m
  | [] => by simp [mapSet, mapFind, hne]
  | (k₀, v₀) :: rest => by
    by_cases h : k₀ = k
    · subst h
      simp [mapSet, mapFind, hne]
    · simp only [mapSet, h, if_false, mapFind]
      by_cases h' : k₀ = k'
      · simp [h']
      · simp only [h', if_false]
        exact mapFind_mapSet_ne v hne rest

theorem mapFind_mapModify_self {κ β : Type} [DecidableEq κ] (k : κ) (f : β → β) :
    ∀ (m : List (κ × β)), mapFind k (mapModify k f m) = (mapFind k m).map f
  | [] => by simp [mapModify, mapFind]
  | (k', v) :: rest => by
    by_cases h : k' = k
    · simp [mapModify, mapFind, h]
    · simp only [mapModify, h, if_false, mapFind, if_neg h]
      exact mapFind_mapModify_self k f rest

theorem mapFind_mapModify_ne {κ β : Type} [DecidableEq κ] {k k' : κ} (f : β → β)
    (hne : ¬ k = k') : ∀ (m : List (κ × β)), mapFind k' (mapModify k f m) = mapFind k' m
  | [] => by simp [mapModify, mapFind]
  | (k₀, v₀) :: rest => by
    by_cases h : k₀ = k
    · subst h
      simp [mapModify, mapFind, hne]
    · simp only [mapModify, h, if_false, mapFind]
      by_cases h' : k₀ = k'
      · simp [h']
      · simp only [h', if_false]
        exact mapFind_mapModify_ne f hne rest

theorem forall_mapSet {κ β : Type} [DecidableEq κ] {P : β → Prop} {k : κ} {v : β}
    (hv : P v) : ∀ {m : List (κ × β)}, (∀ e ∈ m, P e.2) → ∀ e ∈ mapSet k v m, P e.2
  | [], _ => by simpa [mapSet] using hv
  | (k', v') :: rest, h => by
    by_cases hk : k' = k
    · simp only [mapSet, hk, if_true]
      intro e he
      rcases List.mem_cons.mp he with rfl | he
      · exact hv
      · exact h e (List.mem_cons_of_mem _ he)
    · simp only [mapSet, hk, if_false]
      intro e he
      rcases List.mem_cons.mp he with rfl | he
      · exact h _ (List.mem_cons_self _ _)
      · exact forall_mapSet hv (fun e' he' => h e' (List.mem_cons_of_mem _ he')) e he

theorem forall_mapModify {κ β : Type} [DecidableEq κ] {P : β → Prop} {k : κ} {f : β → β}
    (hf : ∀ x, P x → P (f x)) :
    ∀ {m : List (κ × β)}, (∀ e ∈ m, P e.2) → ∀ e ∈ mapModify k f m, P e.2
  | [], _ => by simp [mapModify]
  | (k', v') :: rest, h => by
    by_cases hk : k' = k
    · simp only [mapModify, hk, if_true]
      intro e he
      rcases List.mem_cons.mp he with rfl | he
      · exact hf _ (h _ (List.mem_cons_self _ _))
      · exact h e (List.mem_cons_of_mem _ he)
    · simp only [mapModify, hk, if_false]
      intro e he
      rcases List.mem_cons.mp he with rfl | he
      · exact h _ (List.mem_cons_self _ _)
      · exact forall_mapModify hf (fun e' he' => h e' (List.mem_cons_of_mem _ he')) e he

/-! ## Invariants of the record loop -/

/-- Per-owner well-formedness: positive denominators on all four monetary
accumulators, and the exact category split
`currentMonth = currentMonthCW + currentMonthAE` (as exact rationals). -/
def repOk (r : RepData) : Prop :=
  0 < r.currentMonth.den ∧ 0 < r.currentMonthCW.den ∧ 0 < r.currentMonthAE.den ∧
  0 < r.lastMonth.den ∧
  r.currentMonth.toRat = r.currentMonthCW.toRat + r.currentMonthAE.toRat

/-- Loop-state well-formedness: every owner record is `repOk`, the two global
accumulators have positive denominators, and every recorded candidate value
has a positive denominator. -/
def stateOk (st : ProcState) : Prop :=
  (∀ e ∈ st.repMap, repOk e.2) ∧ 0 < st.cwSourcedCurrentMonth.den ∧
  0 < st.aeSourcedCurrentMonth.den ∧ (∀ r ∈ st.recentDeals, 0 < r.value.den)

theorem Q.toRat_zero : (0 : Q).toRat = 0 := by
  show (Q.ofInt 0).toRat = 0
  rw [Q.toRat_ofInt]
  norm_num

theorem Q.den_zero_pos : (0 : Int) < (0 : Q).den := Int.one_pos

theorem repOk_default (name : String) (photo : Option String) :
    repOk (RepData.mk name photo 0 0 0 0 []) := by
  refine ⟨Q.den_zero_pos, Q.den_zero_pos, Q.den_zero_pos, Q.den_zero_pos, ?_⟩
  rw [Q.toRat_zero]
  norm_num

theorem updateRepData_repOk {now : NowRef} {d : JsDate} {v : Q} (hv : 0 < v.den)
    (lead comp : String) (r : RepData) (hr : repOk r) :
    repOk (updateRepData now d v lead comp r) := by
  rcases hr with ⟨h1, h2, h3, h4, h5⟩
  unfold updateRepData repOk
  split_ifs with hcur hae hlast
  · exact ⟨Q.den_add_pos h1 hv, h2, Q.den_add_pos h3 hv, h4, by
      rw [Q.toRat_add h1 hv, Q.toRat_add h3 hv, h5]; ring⟩
  · exact ⟨Q.den_add_pos h1 hv, Q.den_add_pos h2 hv, h3, h4, by
      rw [Q.toRat_add h1 hv, Q.toRat_add h2 hv, h5]; ring⟩
  · exact ⟨h1, h2, h3, Q.den_add_pos h4 hv, h5⟩
  · exact ⟨h1, h2, h3, h4, h5⟩

/-- The denominator of `parseFloat(text || '0') || 0` is positive for a
well-formed runtime. -/
theorem dealValue_den_pos {rt : JsRuntime} (hrt : rt.floatsOk) (t : String) :
    0 < (match rt.parseFloat t with
         | none => Q.ofInt 0
         | some v => v).den := by
  cases hp : rt.parseFloat t with
  | none => exact Int.one_pos
  | some v => exact hrt _ _ hp

theorem processItem_stateOk {rt : JsRuntime} {now : NowRef} {thr : Int}
    {um : List (String × MondayUser)} (hrt : rt.floatsOk) {st : ProcState}
    (h : stateOk st) (item : MondayItem) :
    stateOk (processItem rt now thr um st item) := by
  rcases h with ⟨hrep, hcw, hae, hrd⟩
  have hdv := dealValue_den_pos hrt
    (jsOr ((item.column_values.find? (fun c => c.id = "deal_value")).bind
      (fun c => c.text)) "0")
  unfold processItem
  simp only
  cases hds : parseDate rt ((item.column_values.find?
      (fun c => c.id = "date4__1")).bind (fun c => c.text)) with
  | none => exact ⟨hrep, hcw, hae, hrd⟩
  | some d =>
    dsimp only
    refine ⟨?_, ?_, ?_, ?_⟩
    · apply forall_mapModify (updateRepData_repOk hdv _ _)
      split_ifs with hhas
      · exact hrep
      · exact forall_mapSet (repOk_default _ _) hrep
    · dsimp only
      split_ifs with hc
      · exact Q.den_add_pos hcw hdv
      · exact hcw
    · dsimp only
      split_ifs with hc
      · exact Q.den_add_pos hae hdv
      · exact hae
    · dsimp only
      split_ifs with hc
      · intro r hrmem
        rcases List.mem_append.mp hrmem with hrmem | hrmem
        · exact hrd r hrmem
        · rcases List.mem_singleton.mp hrmem with rfl
          exact hdv
      · exact hrd

theorem foldl_preserves {σ ι : Type} {P : σ → Prop} (f : σ → ι → σ)
    (hstep : ∀ s i, P s → P (f s i)) :
    ∀ (l : List ι) (s : σ), P s → P (l.foldl f s)
  | [], _, h => h
  | i :: l, s, h => foldl_preserves f hstep l (f s i) (hstep s i h)

theorem stateOk_init : stateOk (ProcState.mk [] [] 0 0 []) := by
  refine ⟨?_, one_pos, one_pos, ?_⟩ <;> simp

theorem processItems_stateOk {rt : JsRuntime} {now : NowRef} {thr : Int}
    {um : List (String × MondayUser)} (hrt : rt.floatsOk) (items : List MondayItem) :
    stateOk (processItems rt now thr um items) := by
  unfold processItems
  exact foldl_preserves (P := stateOk) _ (fun s i hs => processItem_stateOk hrt hs i)
    items _ stateOk_init

/-! ## Sortedness restricted to well-formed elements -/

theorem pairwise_insertLe_on {α : Type} {le : α → α → Bool} {G : α → Prop}
    (htot : ∀ a b, G a → G b → (le a b = true ∨ le b a = true))
    (htrans : ∀ a b c, G a → G b → G c → le a b = true → le b c = true → le a c = true)
    {a : α} (ha : G a) :
    ∀ {l : List α}, (∀ x ∈ l, G x) → l.Pairwise (fun x y => le x y = true) →
      (insertLe le a l).Pairwise (fun x y => le x y = true)
  | [], _, _ => by simp [insertLe]
  | b :: l, hGl, h => by
    rcases List.pairwise_cons.mp h with ⟨hb, hl⟩
    have hGb : G b := hGl b (List.mem_cons_self _ _)
    have hGl' : ∀ x ∈ l, G x := fun x hx => hGl x (List.mem_cons_of_mem _ hx)
    by_cases hab : le a b
    · simp only [insertLe, hab, if_true]
      refine List.pairwise_cons.mpr ⟨?_, h⟩
      intro y hy
      rcases List.mem_cons.mp hy with heq | hy
      · rw [heq]
        exact hab
      · exact htrans a b y ha hGb (hGl' y hy) hab (hb y hy)
    · simp only [insertLe, hab, Bool.false_eq_true, if_false]
      refine List.pairwise_cons.mpr ⟨?_, pairwise_insertLe_on htot htrans ha hGl' hl⟩
      intro y hy
      rcases mem_insertLe.mp hy with heq | hy
      · rw [heq]
        rcases htot a b ha hGb with h' | h'
        · exact absurd h' hab
        · exact h'
      · exact hb y hy

theorem pairwise_sortLe_on {α : Type} {le : α → α → Bool} {G : α → Prop}
    (htot : ∀ a b, G a → G b → (le a b = true ∨ le b a = true))
    (htrans : ∀ a b c, G a → G b → G c → le a b = true → le b c = true → le a c = true) :
    ∀ {l : List α}, (∀ x ∈ l, G x) →
      (sortLe le l).Pairwise (fun x y => le x y = true)
  | [], _ => by simp [sortLe]
  | a :: l, hG =>
    pairwise_insertLe_on htot htrans (hG a (List.mem_cons_self _ _))
      (fun x hx => mem_sortLe.mp hx |> fun hx' => hG x (List.mem_cons_of_mem _ hx'))
      (pairwise_sortLe_on htot htrans (fun x hx => hG x (List.mem_cons_of_mem _ hx)))

theorem sortLe_head_max_on {α : Type} {le : α → α → Bool} {G : α → Prop}
    (htot : ∀ a b, G a → G b → (le a b = true ∨ le b a = true))
    (htrans : ∀ a b c, G a → G b → G c → le a b = true → le b c = true → le a c = true)
    {l : List α} (hG : ∀ x ∈ l, G x) {a : α} {t : List α} (he : sortLe le l = a :: t) :
    a ∈ l ∧ ∀ x ∈ l, le a x = true := by
  have hmem : a ∈ l := mem_sortLe.mp (he ▸ List.mem_cons_self a t)
  refine ⟨hmem, fun x hx => ?_⟩
  have hx' : x ∈ a :: t := he ▸ mem_sortLe.mpr hx
  rcases List.mem_cons.mp hx' with heq | hx'
  · rw [heq]
    rcases htot a a (hG a hmem) (hG a hmem) with h' | h' <;> exact h'
  · have hp := pairwise_sortLe_on htot htrans hG (l := l)
    rw [he] at hp
    exact (List.pairwise_cons.mp hp).1 x hx'

/-- Every emitted leaderboard entry is the image of an owner record of the
loop state that passed the positivity filter; its numeric fields are the
rounded accumulators and its name is the owner's. -/
theorem mem_buildSalesReps {st : ProcState} {s : SalesRep} (hs : s ∈ buildSalesReps st) :
    ∃ rep, rep ∈ st.repMap.map (fun e => e.2) ∧
      (rep.currentMonth > 0 ∨ rep.lastMonth > 0) ∧
      s.name = rep.name ∧ s.currentMonth = jsRound rep.currentMonth ∧
      s.currentMonthCW = jsRound rep.currentMonthCW ∧
      s.currentMonthAE = jsRound rep.currentMonthAE ∧
      s.lastMonth = jsRound rep.lastMonth := by
  unfold buildSalesReps at hs
  rcases mem_mapWithCounter hs with ⟨j, rep, hmem, rfl⟩
  have h1 := List.mem_of_mem_take hmem
  have h2 := mem_sortLe.mp h1
  have h3 := List.mem_filter.mp h2
  refine ⟨rep, h3.1, ?_, rfl, rfl, rfl, rfl, rfl⟩
  have hcond := h3.2
  simp only [Bool.or_eq_true, decide_eq_true_eq] at hcond
  exact hcond

/-! ## Characterization of the record loop's outputs -/

/-- The text of an item's column `cid`, exactly as `processData` reads it. -/
def columnText (item : MondayItem) (cid : String) : Option String :=
  (item.column_values.find? (fun c => c.id = cid)).bind (fun c => c.text)

/-- The highlight/news candidate an item contributes, if any (`processData`,
lines 1760–1791): a parsed signed date within this or last week, a linked
scope, and a value meeting the minimum threshold. -/
def recentDealOf (rt : JsRuntime) (now : NowRef) (thr : Int) (item : MondayItem) :
    Option RecentDeal :=
  let scopeCol := item.column_values.find? (fun c => c.id = "link_to___scopes____1")
  let repName := jsOr (columnText item "deal_owner") "Unknown"
  let dealValue : Q :=
    match rt.parseFloat (jsOr (columnText item "deal_value") "0") with
    | none => Q.ofInt 0
    | some v => v
  let companyName := String.mk (trimChars ((splitOnChar '\n' item.name.toList).headD []))
  match parseDate rt (columnText item "date4__1") with
  | none => none
  | some d =>
    let scope := scopeSignal scopeCol
    if (isThisWeek now d ∨ isLastWeek now d) ∧ scope.1 ∧ Q.ofInt thr ≤ dealValue then
      some (RecentDeal.mk companyName dealValue repName d (isThisWeek now d) (isLastWeek now d)
        scope.2)
    else none

theorem processItem_recentDeals (rt : JsRuntime) (now : NowRef) (thr : Int)
    (um : List (String × MondayUser)) (st : ProcState) (item : MondayItem) :
    (processItem rt now thr um st item).recentDeals =
      st.recentDeals ++ (recentDealOf rt now thr item).toList := by
  unfold processItem recentDealOf columnText
  simp only
  cases parseDate rt ((item.column_values.find?
      (fun c => c.id = "date4__1")).bind (fun c => c.text)) with
  | none => simp
  | some d =>
    dsimp only
    split_ifs with hc
    · simp
    · simp

theorem processItems_recentDeals (rt : JsRuntime) (now : NowRef) (thr : Int)
    (um : List (String × MondayUser)) (items : List MondayItem) :
    (processItems rt now thr um items).recentDeals =
      items.filterMap (recentDealOf rt now thr) := by
  suffices h : ∀ (l : List MondayItem) (st : ProcState),
      (l.foldl (processItem rt now thr um) st).recentDeals =
        st.recentDeals ++ l.filterMap (recentDealOf rt now thr) by
    unfold processItems
    rw [h]
    simp
  intro l
  induction l with
  | nil => simp
  | cons item l ih =>
    intro st
    simp only [List.foldl_cons, List.filterMap_cons]
    rw [ih, processItem_recentDeals]
    cases recentDealOf rt now thr item <;> simp

theorem processItems_append (rt : JsRuntime) (now : NowRef) (thr : Int)
    (um : List (String × MondayUser)) (items : List MondayItem) (item : MondayItem) :
    processItems rt now thr um (items ++ [item]) =
      processItem rt now thr um (processItems rt now thr um items) item := by
  unfold processItems
  rw [List.foldl_append]
  rfl

/-! ## Concrete instances used by the claim witnesses

A small runtime table consistent with the real JS runtime on the listed
inputs, a fixed `now` (January 2099; the week starts at time 900000000), and
a handful of concrete board items. -/

def rtEx : JsRuntime :=
  JsRuntime.mk
    (fun s =>
      if s = "2099-01-10" then some (JsDate.mk 1000000000 0 2099)
      else if s = "2099-01-03" then some (JsDate.mk 400000000 0 2099)
      else if s = "2098-12-20" then some (JsDate.mk 200000000 11 2098)
      else none)
    (fun s =>
      if s = "15000" then some (Q.ofInt 15000)
      else if s = "8000" then some (Q.ofInt 8000)
      else if s = "-5" then some (Q.ofInt (-5))
      else if s = "0" then some (Q.ofInt 0)
      else if s = "0.4" then some (Q.mk 2 5)
      else none)
    (fun q => toString q.num)

theorem rtEx_floatsOk : rtEx.floatsOk := by
  intro s q h
  unfold rtEx at h
  dsimp only at h
  split_ifs at h <;> cases h <;> decide

def nowEx : NowRef := NowRef.mk 1000050000 0 2099 900000000

def itemA : MondayItem :=
  MondayItem.mk "1" "Acme Corp\n [Type]\n [123]"
    [ColumnValue.mk "deal_owner" (some "Jane Doe") none,
     ColumnValue.mk "deal_value" (some "15000") none,
     ColumnValue.mk "date4__1" (some "2099-01-10") none,
     ColumnValue.mk "link_to___scopes____1" (some "S1") none]

def itemB : MondayItem :=
  MondayItem.mk "2" "Beta LLC"
    [ColumnValue.mk "deal_owner" (some "John Roe") none,
     ColumnValue.mk "deal_value" (some "8000") none,
     ColumnValue.mk "date4__1" (some "2099-01-03") none,
     ColumnValue.mk "link_to___scopes____1" (some "S2")
       (some (JsonValue.obj none (some [LinkedPulse.mk 77])))]

def itemNeg : MondayItem :=
  MondayItem.mk "3" "Neg Co"
    [ColumnValue.mk "deal_owner" (some "Jane Doe") none,
     ColumnValue.mk "deal_value" (some "-5") none,
     ColumnValue.mk "date4__1" (some "2099-01-10") none]

def itemBadDate : MondayItem :=
  MondayItem.mk "4" "Ghost Inc"
    [ColumnValue.mk "deal_owner" (some "Jane Doe") none,
     ColumnValue.mk "deal_value" (some "15000") none,
     ColumnValue.mk "date4__1" (some "not-a-date") none,
     ColumnValue.mk "link_to___scopes____1" (some "S9") none]

def itemNoOwner : MondayItem :=
  MondayItem.mk "5" "Orphan Corp"
    [ColumnValue.mk "deal_value" (some "8000") none,
     ColumnValue.mk "date4__1" (some "2099-01-10") none]

def itemAE : MondayItem :=
  MondayItem.mk "6" "AE Deal Co"
    [ColumnValue.mk "deal_owner" (some "Jane Doe") none,
     ColumnValue.mk "deal_value" (some "15000") none,
     ColumnValue.mk "date4__1" (some "2099-01-10") none,
     ColumnValue.mk "color_mm01fk8y" (some "AE Sourced") none]

/-! ## The claims -/

/-- C2: the aggregation engine is deterministic — two calls with an identical
record list, identical user directory and identical settings (goal and
minimum-threshold), against the same runtime and the same fixed `now`
reference, produce identical summary payloads; the embedded engine is a pure
function with no other input. -/
theorem claim_C2_idempotent (rt : JsRuntime) (now : NowRef)
    (items₁ items₂ : List MondayItem) (goal₁ goal₂ thr₁ thr₂ : Int)
    (um₁ um₂ : List (String × MondayUser)) (sm₁ sm₂ : List (Int × SEInfo))
    (hitems : items₁ = items₂) (hgoal : goal₁ = goal₂) (hthr : thr₁ = thr₂)
    (hum : um₁ = um₂) (hsm : sm₁ = sm₂) :
    processData rt now items₁ goal₁ thr₁ um₁ sm₁ =
      processData rt now items₂ goal₂ thr₂ um₂ sm₂ := by
  rw [hitems, hgoal, hthr, hum, hsm]

/-- Witness for C2 at a concrete record list, directory and settings. -/
theorem claim_C2_witness :
    processData rtEx nowEx [itemA, itemB] 100000 0 [] [] =
      processData rtEx nowEx [itemA, itemB] 100000 0 [] [] :=
  claim_C2_idempotent rtEx nowEx [itemA, itemB] [itemA, itemB] 100000 100000 0 0
    [] [] [] [] rfl rfl rfl rfl rfl

/-- C6: a record whose signed-date attribute is missing or fails to parse
contributes zero to every aggregate: processing it leaves the owner map (and
with it every monthly total), both global category accumulators and the
highlight/news candidate list unchanged, it is never a candidate, and
appending it to any record list changes none of those aggregates. -/
theorem claim_C6_unparsable_date (rt : JsRuntime) (now : NowRef) (thr : Int)
    (um : List (String × MondayUser)) (st : ProcState) (item : MondayItem)
    (hbad : parseDate rt (columnText item "date4__1") = none) :
    (processItem rt now thr um st item).repMap = st.repMap ∧
    (processItem rt now thr um st item).cwSourcedCurrentMonth = st.cwSourcedCurrentMonth ∧
    (processItem rt now thr um st item).aeSourcedCurrentMonth = st.aeSourcedCurrentMonth ∧
    (processItem rt now thr um st item).recentDeals = st.recentDeals ∧
    recentDealOf rt now thr item = none ∧
    ∀ items : List MondayItem,
      (processItems rt now thr um (items ++ [item])).repMap =
        (processItems rt now thr um items).repMap ∧
      (processItems rt now thr um (items ++ [item])).cwSourcedCurrentMonth =
        (processItems rt now thr um items).cwSourcedCurrentMonth ∧
      (processItems rt now thr um (items ++ [item])).aeSourcedCurrentMonth =
        (processItems rt now thr um items).aeSourcedCurrentMonth ∧
      (processItems rt now thr um (items ++ [item])).recentDeals =
        (processItems rt now thr um items).recentDeals := by
  unfold columnText at hbad
  have key : ∀ st' : ProcState,
      (processItem rt now thr um st' item).repMap = st'.repMap ∧
      (processItem rt now thr um st' item).cwSourcedCurrentMonth = st'.cwSourcedCurrentMonth ∧
      (processItem rt now thr um st' item).aeSourcedCurrentMonth = st'.aeSourcedCurrentMonth ∧
      (processItem rt now thr um st' item).recentDeals = st'.recentDeals := by
    intro st'
    unfold processItem
    simp only
    rw [hbad]
    exact ⟨rfl, rfl, rfl, rfl⟩
  have hnone : recentDealOf rt now thr item = none := by
    unfold recentDealOf columnText
    simp only
    rw [hbad]
  refine ⟨(key st).1, (key st).2.1, (key st).2.2.1, (key st).2.2.2, hnone, ?_⟩
  intro items
  rw [processItems_append]
  exact key _

/-- Witness for C6 at a concrete unparsable-date record. -/
theorem claim_C6_witness :
    (processItem rtEx nowEx 0 [] (processItems rtEx nowEx 0 [] [itemA]) itemBadDate).repMap =
      (processItems rtEx nowEx 0 [] [itemA]).repMap ∧
    recentDealOf rtEx nowEx 0 itemBadDate = none := by
  have h := claim_C6_unparsable_date rtEx nowEx 0 [] (processItems rtEx nowEx 0 [] [itemA])
    itemBadDate (by decide)
  exact ⟨h.1, h.2.2.2.2.1⟩

/-- What one loop iteration does to the state when the item's signed date
parses: the owner record is created if missing and updated by
`updateRepData`, the global category accumulators grow on the matching
branch, and the candidate list grows when the window/scope/threshold test
passes. -/
theorem processItem_parsed (rt : JsRuntime) (now : NowRef) (thr : Int)
    (um : List (String × MondayUser)) (st : ProcState) (item : MondayItem)
    (d : JsDate) (hdate : parseDate rt (columnText item "date4__1") = some d) :
    processItem rt now thr um st item =
      (let repName := jsOr (columnText item "deal_owner") "Unknown"
       let dealValue : Q := match rt.parseFloat (jsOr (columnText item "deal_value") "0") with
         | none => Q.ofInt 0
         | some v => v
       let leadSourceType := jsOr (columnText item "color_mm01fk8y") ""
       let repPhotoMap := updatePhotoMap um repName
         ((item.column_values.find? (fun c => c.id = "deal_owner")).bind (fun c => c.value))
         st.repPhotoMap
       let companyName := String.mk (trimChars ((splitOnChar '\n' item.name.toList).headD []))
       let scope := scopeSignal (item.column_values.find? (fun c => c.id = "link_to___scopes____1"))
       let repMap0 := if (mapFind repName st.repMap).isSome then st.repMap
         else mapSet repName
           (RepData.mk repName (jsOrNull (mapFind repName repPhotoMap)) 0 0 0 0 []) st.repMap
       ProcState.mk
         (mapModify repName (updateRepData now d dealValue leadSourceType companyName) repMap0)
         repPhotoMap
         (if isCurrentMonth now d ∧ ¬ leadSourceType = "AE Sourced" then
            st.cwSourcedCurrentMonth + dealValue else st.cwSourcedCurrentMonth)
         (if isCurrentMonth now d ∧ leadSourceType = "AE Sourced" then
            st.aeSourcedCurrentMonth + dealValue else st.aeSourcedCurrentMonth)
         (if (isThisWeek now d ∨ isLastWeek now d) ∧ scope.1 ∧ Q.ofInt thr ≤ dealValue then
            st.recentDeals ++ [RecentDeal.mk companyName dealValue repName d
              (isThisWeek now d) (isLastWeek now d) scope.2]
          else st.recentDeals)) := by
  unfold processItem columnText at *
  simp only
  rw [hdate]

/-- C7: for a current-month deal, the category is decided solely by exact
equality of the lead-source label with "AE Sourced": that label adds the
value to the AE accumulators (global and per-owner) and leaves the CW ones
unchanged; every other label — including a blank or missing one — adds it to
the CW accumulators and leaves the AE ones unchanged. Either way the value
also joins the owner's `currentMonth` total. -/
theorem claim_C7_category_sentinel (rt : JsRuntime) (now : NowRef) (thr : Int)
    (um : List (String × MondayUser)) (st : ProcState) (item : MondayItem)
    (d : JsDate) (hdate : parseDate rt (columnText item "date4__1") = some d)
    (hcur : isCurrentMonth now d = true) :
    let repName := jsOr (columnText item "deal_owner") "Unknown"
    let v : Q := match rt.parseFloat (jsOr (columnText item "deal_value") "0") with
      | none => Q.ofInt 0
      | some w => w
    let lead := jsOr (columnText item "color_mm01fk8y") ""
    let st' := processItem rt now thr um st item
    let prev := match mapFind repName st.repMap with
      | some r => (r.currentMonth, r.currentMonthCW, r.currentMonthAE)
      | none => ((0 : Q), (0 : Q), (0 : Q))
    (lead = "AE Sourced" →
      st'.aeSourcedCurrentMonth = st.aeSourcedCurrentMonth + v ∧
      st'.cwSourcedCurrentMonth = st.cwSourcedCurrentMonth ∧
      (mapFind repName st'.repMap).map
          (fun r => (r.currentMonth, r.currentMonthCW, r.currentMonthAE)) =
        some (prev.1 + v, prev.2.1, prev.2.2 + v)) ∧
    (¬ lead = "AE Sourced" →
      st'.cwSourcedCurrentMonth = st.cwSourcedCurrentMonth + v ∧
      st'.aeSourcedCurrentMonth = st.aeSourcedCurrentMonth ∧
      (mapFind repName st'.repMap).map
          (fun r => (r.currentMonth, r.currentMonthCW, r.currentMonthAE)) =
        some (prev.1 + v, prev.2.1 + v, prev.2.2)) := by
  simp only
  rw [processItem_parsed rt now thr um st item d hdate]
  simp only
  have hcur' : isCurrentMonth now d := hcur
  constructor
  · intro hae
    refine ⟨?_, ?_, ?_⟩
    · rw [if_pos ⟨hcur', hae⟩]
    · rw [if_neg (fun hand => hand.2 hae)]
    · rw [mapFind_mapModify_self]
      cases hx : mapFind (jsOr (columnText item "deal_owner") "Unknown") st.repMap with
      | some r =>
        rw [if_pos (show (some r).isSome = true from rfl), hx]
        unfold updateRepData
        simp [hae, hcur']
      | none =>
        rw [if_neg (show ¬ (none : Option RepData).isSome = true by simp),
          mapFind_mapSet_self]
        unfold updateRepData
        simp [hae, hcur']
  · intro hae
    refine ⟨?_, ?_, ?_⟩
    · rw [if_pos ⟨hcur', hae⟩]
    · rw [if_neg (fun hand => hae hand.2)]
    · rw [mapFind_mapModify_self]
      cases hx : mapFind (jsOr (columnText item "deal_owner") "Unknown") st.repMap with
      | some r =>
        rw [if_pos (show (some r).isSome = true from rfl), hx]
        unfold updateRepData
        simp [hae, hcur']
      | none =>
        rw [if_neg (show ¬ (none : Option RepData).isSome = true by simp),
          mapFind_mapSet_self]
        unfold updateRepData
        simp [hae, hcur']

/-- Witness for C7: the label "AE Sourced" routes a concrete 15000 deal into
the AE accumulator, the default (absent) label routes it into the CW one. -/
theorem claim_C7_witness :
    (processItem rtEx nowEx 0 [] (ProcState.mk [] [] 0 0 []) itemAE).aeSourcedCurrentMonth =
      (0 : Q) + Q.ofInt 15000 ∧
    (processItem rtEx nowEx 0 [] (ProcState.mk [] [] 0 0 []) itemA).cwSourcedCurrentMonth =
      (0 : Q) + Q.ofInt 15000 := by
  have h1 := claim_C7_category_sentinel rtEx nowEx 0 [] (ProcState.mk [] [] 0 0 []) itemAE
    (JsDate.mk 1000000000 0 2099) (by decide) (by decide)
  have h2 := claim_C7_category_sentinel rtEx nowEx 0 [] (ProcState.mk [] [] 0 0 []) itemA
    (JsDate.mk 1000000000 0 2099) (by decide) (by decide)
  exact ⟨(h1.1 (by decide)).1, (h2.2 (by decide)).1⟩

/-- C10: a record whose owner attribute has missing or empty text is not
dropped: its owner name resolves to the literal "Unknown", the record is
aggregated under the "Unknown" entry by the same `updateRepData` update any
real owner receives, no other owner's entry changes, and any highlight/news
candidate it produces carries the owner name "Unknown". -/
theorem claim_C10_unknown_owner (rt : JsRuntime) (now : NowRef) (thr : Int)
    (um : List (String × MondayUser)) (st : ProcState) (item : MondayItem)
    (d : JsDate)
    (howner : columnText item "deal_owner" = none ∨ columnText item "deal_owner" = some "")
    (hdate : parseDate rt (columnText item "date4__1") = some d) :
    let v : Q := match rt.parseFloat (jsOr (columnText item "deal_value") "0") with
      | none => Q.ofInt 0
      | some w => w
    let lead := jsOr (columnText item "color_mm01fk8y") ""
    let company := String.mk (trimChars ((splitOnChar '\n' item.name.toList).headD []))
    let st' := processItem rt now thr um st item
    jsOr (columnText item "deal_owner") "Unknown" = "Unknown" ∧
    (∃ r₀, mapFind "Unknown" st'.repMap = some (updateRepData now d v lead company r₀) ∧
      (mapFind "Unknown" st.repMap = some r₀ ∨
        (mapFind "Unknown" st.repMap = none ∧ r₀.name = "Unknown" ∧ r₀.currentMonth = 0 ∧
          r₀.currentMonthCW = 0 ∧ r₀.currentMonthAE = 0 ∧ r₀.lastMonth = 0))) ∧
    (∀ k, ¬ k = "Unknown" → mapFind k st'.repMap = mapFind k st.repMap) ∧
    st'.recentDeals = st.recentDeals ++ (recentDealOf rt now thr item).toList ∧
    (∀ rd ∈ (recentDealOf rt now thr item).toList, rd.repName = "Unknown") := by
  have hname : jsOr (columnText item "deal_owner") "Unknown" = "Unknown" := by
    rcases howner with h | h <;> rw [h] <;> rfl
  simp only
  rw [processItem_parsed rt now thr um st item d hdate]
  simp only [hname]
  refine ⟨trivial, ?_, ?_, ?_, ?_⟩
  · rw [mapFind_mapModify_self]
    cases hx : mapFind "Unknown" st.repMap with
    | some r =>
      rw [if_pos (show (some r).isSome = true from rfl), hx]
      exact ⟨r, rfl, Or.inl rfl⟩
    | none =>
      rw [if_neg (show ¬ (none : Option RepData).isSome = true by simp),
        mapFind_mapSet_self]
      exact ⟨_, rfl, Or.inr ⟨rfl, rfl, rfl, rfl, rfl, rfl⟩⟩
  · intro k hk
    rw [mapFind_mapModify_ne _ (fun h => hk h.symm)]
    split_ifs with hhas
    · rfl
    · exact mapFind_mapSet_ne _ (fun h => hk h.symm) st.repMap
  · unfold recentDealOf
    simp only [hname]
    rw [show parseDate rt (columnText item "date4__1") = some d from hdate]
    dsimp only
    split_ifs with hc
    · rfl
    · simp
  · intro rd hrd
    unfold recentDealOf at hrd
    simp only [hname] at hrd
    rw [show parseDate rt (columnText item "date4__1") = some d from hdate] at hrd
    dsimp only at hrd
    split_ifs at hrd with hc
    · rcases List.mem_singleton.mp (by simpa using hrd) with rfl
      rfl
    · simp at hrd

/-- Witness for C10: a concrete record with no owner column lands under
"Unknown". -/
theorem claim_C10_witness :
    jsOr (columnText itemNoOwner "deal_owner") "Unknown" = "Unknown" ∧
    (mapFind "Unknown"
      (processItem rtEx nowEx 0 [] (ProcState.mk [] [] 0 0 []) itemNoOwner).repMap).isSome
        = true := by
  have h := claim_C10_unknown_owner rtEx nowEx 0 [] (ProcState.mk [] [] 0 0 []) itemNoOwner
    (JsDate.mk 1000000000 0 2099) (Or.inl (by decide)) (by decide)
  refine ⟨h.1, ?_⟩
  rcases h.2.1 with ⟨r₀, hr, _⟩
  rw [hr]
  rfl

theorem Q.add_zero' (a : Q) : a + Q.ofInt 0 = a := by
  cases a with
  | mk n d =>
    show Q.mk (n * 1 + 0 * d) (d * 1) = Q.mk n d
    simp only [Q.mk.injEq]
    constructor <;> ring

/-- The four monetary accumulators recorded for owner `k` (zeros when the
owner has no entry). -/
def repNums (m : List (String × RepData)) (k : String) : Q × Q × Q × Q :=
  match mapFind k m with
  | some r => (r.currentMonth, r.currentMonthCW, r.currentMonthAE, r.lastMonth)
  | none => (Q.ofInt 0, Q.ofInt 0, Q.ofInt 0, Q.ofInt 0)

theorem updateRepData_zero_cm (now : NowRef) (d : JsDate) (lead comp : String)
    (r : RepData) :
    (updateRepData now d (Q.ofInt 0) lead comp r).currentMonth = r.currentMonth := by
  unfold updateRepData
  split_ifs <;> simp [Q.add_zero']

theorem updateRepData_zero_cw (now : NowRef) (d : JsDate) (lead comp : String)
    (r : RepData) :
    (updateRepData now d (Q.ofInt 0) lead comp r).currentMonthCW = r.currentMonthCW := by
  unfold updateRepData
  split_ifs <;> simp [Q.add_zero']

theorem updateRepData_zero_ae (now : NowRef) (d : JsDate) (lead comp : String)
    (r : RepData) :
    (updateRepData now d (Q.ofInt 0) lead comp r).currentMonthAE = r.currentMonthAE := by
  unfold updateRepData
  split_ifs <;> simp [Q.add_zero']

theorem updateRepData_zero_lm (now : NowRef) (d : JsDate) (lead comp : String)
    (r : RepData) :
    (updateRepData now d (Q.ofInt 0) lead comp r).lastMonth = r.lastMonth := by
  unfold updateRepData
  split_ifs <;> simp [Q.add_zero']

/-- C1 (counterexample): the claim as stated is false on the code — a value
whose text parses to a negative number propagates that negative amount into
the sums and into an emitted output field. With a single record whose value
text is "-5" (which the runtime parses to −5, as JS `parseFloat` does), the
emitted `cwTarget.current` is −5 < 0. -/
theorem claim_C1_counterexample :
    rtEx.parseFloat "-5" = some (Q.ofInt (-5)) ∧
    (processData rtEx nowEx [itemNeg] 100000 0 [] []).cwTarget.current = -5 ∧
    (processData rtEx nowEx [itemNeg] 100000 0 [] []).cwTarget.current < 0 := by
  decide

/-- C1 (amended): a value whose text is missing or non-numeric (`parseFloat`
yields NaN, or the default text "0" parses to 0) contributes 0: the record
leaves both global category accumulators and every owner's four monetary
accumulators unchanged, and any highlight/news candidate it produces carries
value 0. (A text parsing to a negative number, by contrast, contributes that
negative amount — see the counterexample.) -/
theorem claim_C1_amended (rt : JsRuntime) (now : NowRef) (thr : Int)
    (um : List (String × MondayUser)) (st : ProcState) (item : MondayItem)
    (hv : rt.parseFloat (jsOr (columnText item "deal_value") "0") = none ∨
          rt.parseFloat (jsOr (columnText item "deal_value") "0") = some (Q.ofInt 0)) :
    let st' := processItem rt now thr um st item
    st'.cwSourcedCurrentMonth = st.cwSourcedCurrentMonth ∧
    st'.aeSourcedCurrentMonth = st.aeSourcedCurrentMonth ∧
    (∀ k, repNums st'.repMap k = repNums st.repMap k) ∧
    (st'.recentDeals = st.recentDeals ∨
      ∃ rd, st'.recentDeals = st.recentDeals ++ [rd] ∧ rd.value = Q.ofInt 0) := by
  simp only
  have hdv : (match rt.parseFloat (jsOr (columnText item "deal_value") "0") with
      | none => Q.ofInt 0
      | some v => v) = Q.ofInt 0 := by
    rcases hv with h | h <;> rw [h]
  cases hds : parseDate rt (columnText item "date4__1") with
  | none =>
    have hkey : processItem rt now thr um st item =
        ProcState.mk st.repMap
          (updatePhotoMap um (jsOr (columnText item "deal_owner") "Unknown")
            ((item.column_values.find? (fun c => c.id = "deal_owner")).bind (fun c => c.value))
            st.repPhotoMap)
          st.cwSourcedCurrentMonth st.aeSourcedCurrentMonth st.recentDeals := by
      unfold processItem columnText at *
      simp only
      rw [hds]
    rw [hkey]
    exact ⟨rfl, rfl, fun k => rfl, Or.inl rfl⟩
  | some d =>
    rw [processItem_parsed rt now thr um st item d hds]
    simp only [hdv]
    refine ⟨?_, ?_, ?_, ?_⟩
    · split_ifs with hc
      · exact Q.add_zero' _
      · rfl
    · split_ifs with hc
      · exact Q.add_zero' _
      · rfl
    · intro k
      by_cases hk : k = jsOr (columnText item "deal_owner") "Unknown"
      · unfold repNums
        rw [hk, mapFind_mapModify_self]
        cases hx : mapFind (jsOr (columnText item "deal_owner") "Unknown") st.repMap with
        | some r =>
          rw [if_pos (show (some r).isSome = true from rfl), hx]
          simp only [Option.map_some', updateRepData_zero_cm, updateRepData_zero_cw,
            updateRepData_zero_ae, updateRepData_zero_lm]
        | none =>
          rw [if_neg (show ¬ (none : Option RepData).isSome = true by simp),
            mapFind_mapSet_self]
          simp only [Option.map_some', updateRepData_zero_cm, updateRepData_zero_cw,
            updateRepData_zero_ae, updateRepData_zero_lm]
          rfl
      · unfold repNums
        rw [mapFind_mapModify_ne _ (fun h => hk h.symm)]
        split_ifs with hhas
        · rfl
        · rw [mapFind_mapSet_ne _ (fun h => hk h.symm)]
    · split_ifs with hc
      · exact Or.inr ⟨_, rfl, rfl⟩
      · exact Or.inl rfl

def itemNoNum : MondayItem :=
  MondayItem.mk "7" "NoNum Co"
    [ColumnValue.mk "deal_owner" (some "Jane Doe") none,
     ColumnValue.mk "deal_value" (some "abc") none,
     ColumnValue.mk "date4__1" (some "2099-01-10") none]

/-- Witness for the amended C1: a record whose value text does not parse
leaves the accumulators unchanged. -/
theorem claim_C1_witness :
    (processItem rtEx nowEx 0 [] (ProcState.mk [] [] 0 0 []) itemNoNum).cwSourcedCurrentMonth
      = (ProcState.mk ([] : List (String × RepData)) [] 0 0 []).cwSourcedCurrentMonth ∧
    repNums (processItem rtEx nowEx 0 [] (ProcState.mk [] [] 0 0 []) itemNoNum).repMap
        "Jane Doe" =
      repNums (ProcState.mk ([] : List (String × RepData)) [] 0 0 []).repMap "Jane Doe" := by
  have h := claim_C1_amended rtEx nowEx 0 [] (ProcState.mk [] [] 0 0 []) itemNoNum
    (Or.inl (by decide))
  exact ⟨h.1, h.2.2.1 "Jane Doe"⟩

/-- C9 (counterexample): the claim as stated is false on the code — when the
upstream response body cannot be parsed (it contains no JSON array span), the
endpoint does not fall back: it surfaces a 500 error. All other inputs of
this run are well-formed (POST, key configured, one deal). -/
theorem claim_C9_counterexample :
    (newsHandler (fun _ => none) "POST" (some "key")
      (some (NewsReqBody.mk (some [DealInfo.mk "Jane" "Acme" (Q.ofInt 15000) "Today"]) none))
      (UpstreamResult.ok "no json array here")).status = 500 ∧
    (newsHandler (fun _ => none) "POST" (some "key")
      (some (NewsReqBody.mk (some [DealInfo.mk "Jane" "Acme" (Q.ofInt 15000) "Today"]) none))
      (UpstreamResult.ok "no json array here")).error
        = some "Failed to parse AI response" := by
  decide

/-- C9 (amended): the endpoint answers 200 (so the caller falls back to the
deterministic copy) on missing/empty credentials, an upstream call that
throws (transport failure or non-2xx), or a JSON.parse failure on the
extracted array — and 405 only on an unsupported method — but it answers 500
in exactly one failure mode: a successfully returned response text that
contains no JSON array span. -/
theorem claim_C9_amended (parseArticles : String → Option (List GenArticle))
    (method : String) (key : Option String) (body : Option NewsReqBody)
    (upstream : UpstreamResult) :
    ((newsHandler parseArticles method key body upstream).status = 200 ∨
     (newsHandler parseArticles method key body upstream).status = 405 ∨
     (newsHandler parseArticles method key body upstream).status = 500) ∧
    ((newsHandler parseArticles method key body upstream).status = 405 ↔
      (¬ method = "OPTIONS" ∧ ¬ method = "POST")) ∧
    ((newsHandler parseArticles method key body upstream).status = 500 ↔
      (method = "POST" ∧ keyMissing key = false ∧
        ∃ b deals t, body = some b ∧ b.deals = some deals ∧ ¬ deals.length = 0 ∧
          upstream = UpstreamResult.ok t ∧ jsonMatch t = none)) := by
  unfold newsHandler
  split_ifs with h1 h2 h3
  · subst h1
    exact ⟨Or.inl rfl, by simp, by simp⟩
  · exact ⟨Or.inl rfl, by simp [h1, h2], by simp [h3]⟩
  · have hkey : keyMissing key = false := by
      cases hkm : keyMissing key
      · rfl
      · exact absurd hkm h3
    cases body with
    | none => exact ⟨Or.inl rfl, by simp [h1, h2], by simp⟩
    | some b =>
      dsimp only
      cases hdeals : b.deals with
      | none => exact ⟨Or.inl rfl, by simp [h1, h2], by simp [hdeals]⟩
      | some deals =>
        dsimp only
        by_cases hlen : deals.length = 0
        · rw [if_pos hlen]
          exact ⟨Or.inl rfl, by simp [h1, h2],
            by simp [hdeals, List.length_eq_zero.mp hlen]⟩
        · rw [if_neg hlen]
          cases upstream with
          | throws => exact ⟨Or.inl rfl, by simp [h1, h2], by simp⟩
          | ok t =>
            dsimp only
            cases hjm : jsonMatch t with
            | none =>
              dsimp only
              refine ⟨Or.inr (Or.inr rfl), by simp [h1, h2], ?_⟩
              simp only [true_iff, iff_true]
              exact ⟨h2, hkey, b, deals, t, rfl, hdeals, hlen, rfl, hjm⟩
            | some m =>
              dsimp only
              cases parseArticles m with
              | none => exact ⟨Or.inl rfl, by simp [h1, h2], by simp [hdeals, hjm]⟩
              | some arts => exact ⟨Or.inl rfl, by simp [h1, h2], by simp [hdeals, hjm]⟩
  · exact ⟨Or.inr (Or.inl rfl), by simp [h1, h2], by simp [h2]⟩

theorem List.mem_map_snd {α β : Type} {l : List (α × β)} {b : β}
    (h : b ∈ l.map (fun e => e.2)) : ∃ e, e ∈ l ∧ e.2 = b := by
  rcases List.mem_map.mp h with ⟨e, he, rfl⟩
  exact ⟨e, he, rfl⟩

/-- C3: for every emitted leaderboard entry, the two category fields sum to
the current-month field up to the rounding applied to each output field
(the rounded fields differ by at most 1), and the underlying exact
accumulators satisfy `currentMonth = currentMonthCW + currentMonthAE`
exactly. -/
theorem claim_C3_category_split (rt : JsRuntime) (now : NowRef) (items : List MondayItem)
    (goal thr : Int) (um : List (String × MondayUser)) (sm : List (Int × SEInfo))
    (hrt : rt.floatsOk) :
    ∀ s ∈ (processData rt now items goal thr um sm).salesReps,
      |s.currentMonthCW + s.currentMonthAE - s.currentMonth| ≤ 1 ∧
      ∃ rep, rep ∈ (processItems rt now thr um items).repMap.map (fun e => e.2) ∧
        s.name = rep.name ∧
        rep.currentMonth.toRat = rep.currentMonthCW.toRat + rep.currentMonthAE.toRat ∧
        s.currentMonth = jsRound rep.currentMonth ∧
        s.currentMonthCW = jsRound rep.currentMonthCW ∧
        s.currentMonthAE = jsRound rep.currentMonthAE := by
  intro s hs
  have hsOk := @processItems_stateOk rt now thr um hrt items
  have hs' : s ∈ buildSalesReps (processItems rt now thr um items) := hs
  rcases mem_buildSalesReps hs' with ⟨rep, hmem, _hfilter, hname, hcm, hcw, hae, _hlm⟩
  rcases List.mem_map_snd hmem with ⟨e, he, heq⟩
  have hrepOk : repOk rep := heq ▸ hsOk.1 e he
  rcases hrepOk with ⟨d1, d2, d3, _d4, hsplit⟩
  constructor
  · rw [hcm, hcw, hae]
    exact jsRound_split_bound d2 d3 d1 hsplit
  · exact ⟨rep, hmem, hname, hsplit, hcm, hcw, hae⟩

/-- Witness for C3 at a concrete run with one CW and one AE deal. -/
theorem claim_C3_witness :
    ∃ s, s ∈ (processData rtEx nowEx [itemA, itemAE] 100000 0 [] []).salesReps ∧
      |s.currentMonthCW + s.currentMonthAE - s.currentMonth| ≤ 1 := by
  have h := claim_C3_category_split rtEx nowEx [itemA, itemAE] 100000 0 [] [] rtEx_floatsOk
  refine ⟨(processData rtEx nowEx [itemA, itemAE] 100000 0 [] []).salesReps.headD
    (SalesRep.mk "" "" "" "" none 0 0 0 0), ?_, ?_⟩
  · decide
  · exact (h _ (by decide)).1

theorem pairwise_of_forall_mem {α : Type} {G : α → Prop} :
    ∀ {l : List α}, (∀ x ∈ l, G x) → l.Pairwise (fun a b => G a ∧ G b)
  | [], _ => List.Pairwise.nil
  | a :: l, h =>
    List.pairwise_cons.mpr
      ⟨fun b hb => ⟨h a (List.mem_cons_self _ _), h b (List.mem_cons_of_mem _ hb)⟩,
       pairwise_of_forall_mem (fun x hx => h x (List.mem_cons_of_mem _ hx))⟩

/-- Totality of the descending comparator on `currentMonth`. -/
theorem cmLe_total (a b : RepData) :
    decide (b.currentMonth ≤ a.currentMonth) = true ∨
    decide (a.currentMonth ≤ b.currentMonth) = true := by
  rcases Q.le_total' b.currentMonth a.currentMonth with h | h
  · exact Or.inl (decide_eq_true h)
  · exact Or.inr (decide_eq_true h)

/-- Transitivity of the descending comparator on `currentMonth`, on records
with positive accumulator denominators. -/
theorem cmLe_trans {a b c : RepData} (ha : 0 < a.currentMonth.den)
    (hb : 0 < b.currentMonth.den) (hc : 0 < c.currentMonth.den)
    (hab : decide (b.currentMonth ≤ a.currentMonth) = true)
    (hbc : decide (c.currentMonth ≤ b.currentMonth) = true) :
    decide (c.currentMonth ≤ a.currentMonth) = true :=
  decide_eq_true (Q.le_trans' hc hb ha (of_decide_eq_true hbc) (of_decide_eq_true hab))

/-- C8: the emitted leaderboard has at most 10 entries, is sorted descending
by current-month total, and contains no owner whose exact current-month and
prior-month totals are both zero (every emitted owner has a strictly positive
current- or prior-month total), even if that owner has older deals. -/
theorem claim_C8_leaderboard (rt : JsRuntime) (now : NowRef) (items : List MondayItem)
    (goal thr : Int) (um : List (String × MondayUser)) (sm : List (Int × SEInfo))
    (hrt : rt.floatsOk) :
    (processData rt now items goal thr um sm).salesReps.length ≤ 10 ∧
    (processData rt now items goal thr um sm).salesReps.Pairwise
      (fun a b => b.currentMonth ≤ a.currentMonth) ∧
    ∀ s ∈ (processData rt now items goal thr um sm).salesReps, ∃ rep,
      rep ∈ (processItems rt now thr um items).repMap.map (fun e => e.2) ∧
      s.name = rep.name ∧ (0 < rep.currentMonth.toRat ∨ 0 < rep.lastMonth.toRat) ∧
      ¬ (rep.currentMonth.toRat = 0 ∧ rep.lastMonth.toRat = 0) := by
  have hsOk := @processItems_stateOk rt now thr um hrt items
  have hrepOk : ∀ rep ∈ (processItems rt now thr um items).repMap.map (fun e => e.2),
      repOk rep := by
    intro rep hm
    rcases List.mem_map_snd hm with ⟨e, he, heq⟩
    exact heq ▸ hsOk.1 e he
  refine ⟨?_, ?_, ?_⟩
  · show (buildSalesReps (processItems rt now thr um items)).length ≤ 10
    unfold buildSalesReps
    rw [length_mapWithCounter]
    exact List.length_take_le 10 _
  · show (buildSalesReps (processItems rt now thr um items)).Pairwise
      (fun a b => b.currentMonth ≤ a.currentMonth)
    unfold buildSalesReps
    set l₀ := ((processItems rt now thr um items).repMap.map (fun e => e.2)).filter
      (fun rep => rep.currentMonth > 0 || rep.lastMonth > 0) with hl₀
    have hG : ∀ x ∈ l₀, 0 < x.currentMonth.den := by
      intro x hx
      exact (hrepOk x (List.mem_filter.mp hx).1).1
    have hp := pairwise_sortLe_on (fun a b ha hb => cmLe_total a b)
      (fun a b c ha hb hc hab hbc => cmLe_trans ha hb hc hab hbc) hG
    have hGs : ∀ x ∈ sortLe (fun a b : RepData => decide (b.currentMonth ≤ a.currentMonth)) l₀,
        0 < x.currentMonth.den := fun x hx => hG x (mem_sortLe.mp hx)
    have hcomb := hp.and (pairwise_of_forall_mem hGs)
    have htake := hcomb.sublist (List.take_sublist 10 _)
    refine pairwise_mapWithCounter ?_ htake
    intro i j a b hab
    show (jsRound b.currentMonth : Int) ≤ jsRound a.currentMonth
    exact jsRound_mono hab.2.2 hab.2.1 (of_decide_eq_true hab.1)
  · intro s hs
    have hs' : s ∈ buildSalesReps (processItems rt now thr um items) := hs
    rcases mem_buildSalesReps hs' with ⟨rep, hmem, hfilter, hname, _, _, _, _⟩
    have hOk := hrepOk rep hmem
    have hc0 : (0 : Q).den = 1 := rfl
    have hpos : 0 < rep.currentMonth.toRat ∨ 0 < rep.lastMonth.toRat := by
      rcases hfilter with h | h
      · left
        have := (Q.lt_iff_toRat (by rw [hc0]; exact Int.one_pos) hOk.1).mp h
        rwa [Q.toRat_zero] at this
      · right
        have := (Q.lt_iff_toRat (by rw [hc0]; exact Int.one_pos) hOk.2.2.2.1).mp h
        rwa [Q.toRat_zero] at this
    refine ⟨rep, hmem, hname, hpos, ?_⟩
    rintro ⟨hz1, hz2⟩
    rcases hpos with h | h
    · rw [hz1] at h
      exact lt_irrefl _ h
    · rw [hz2] at h
      exact lt_irrefl _ h

/-- Witness for C8 at a concrete record list. -/
theorem claim_C8_witness :
    (processData rtEx nowEx [itemA, itemB, itemNeg] 100000 0 [] []).salesReps.length ≤ 10 ∧
    (processData rtEx nowEx [itemA, itemB, itemNeg] 100000 0 [] []).salesReps.Pairwise
      (fun a b => b.currentMonth ≤ a.currentMonth) :=
  ⟨(claim_C8_leaderboard rtEx nowEx [itemA, itemB, itemNeg] 100000 0 [] [] rtEx_floatsOk).1,
   (claim_C8_leaderboard rtEx nowEx [itemA, itemB, itemNeg] 100000 0 [] [] rtEx_floatsOk).2.1⟩

/-- The display info built for an owner always carries that owner's name. -/
theorem getRepInfo_name (salesReps : List SalesRep) (pm : List (String × String))
    (repName : String) : (getRepInfo salesReps pm repName).name = repName := by
  unfold getRepInfo
  cases hf : salesReps.find? (fun r => r.name = repName) with
  | none => rfl
  | some rep =>
    have hp := List.find?_some hf
    simpa using of_decide_eq_true hp

/-- Totality of the descending comparator on candidate values. -/
theorem valueLe_total (a b : RecentDeal) :
    decide (b.value ≤ a.value) = true ∨ decide (a.value ≤ b.value) = true := by
  rcases Q.le_total' b.value a.value with h | h
  · exact Or.inl (decide_eq_true h)
  · exact Or.inr (decide_eq_true h)

/-- Transitivity of the descending comparator on candidate values with
positive denominators. -/
theorem valueLe_trans {a b c : RecentDeal} (ha : 0 < a.value.den)
    (hb : 0 < b.value.den) (hc : 0 < c.value.den)
    (hab : decide (b.value ≤ a.value) = true)
    (hbc : decide (c.value ≤ b.value) = true) :
    decide (c.value ≤ a.value) = true :=
  decide_eq_true (Q.le_trans' hc hb ha (of_decide_eq_true hbc) (of_decide_eq_true hab))

/-- C4: the candidate list is exactly the records with a parsed signed date
in one of the two week windows, a linked scope and a value meeting the
threshold; and for each window, the emitted highlight is null exactly when
that window has no candidate, and otherwise it is built from a candidate of
that window of maximum value among exactly that window's candidates. -/
theorem claim_C4_highlights (rt : JsRuntime) (now : NowRef) (items : List MondayItem)
    (goal thr : Int) (um : List (String × MondayUser)) (sm : List (Int × SEInfo))
    (hrt : rt.floatsOk) :
    (processItems rt now thr um items).recentDeals =
      items.filterMap (recentDealOf rt now thr) ∧
    ((processData rt now items goal thr um sm).topDeals.thisWeek = none ↔
      (processItems rt now thr um items).recentDeals.filter (fun r => r.isThisWeek) = []) ∧
    (∀ td, (processData rt now items goal thr um sm).topDeals.thisWeek = some td →
      ∃ c, c ∈ (processItems rt now thr um items).recentDeals.filter (fun r => r.isThisWeek) ∧
        td.company = c.company ∧ td.value = jsRound c.value ∧ td.rep.name = c.repName ∧
        ∀ x ∈ (processItems rt now thr um items).recentDeals.filter (fun r => r.isThisWeek),
          x.value ≤ c.value) ∧
    ((processData rt now items goal thr um sm).topDeals.lastWeek = none ↔
      (processItems rt now thr um items).recentDeals.filter (fun r => r.isLastWeek) = []) ∧
    (∀ td, (processData rt now items goal thr um sm).topDeals.lastWeek = some td →
      ∃ c, c ∈ (processItems rt now thr um items).recentDeals.filter (fun r => r.isLastWeek) ∧
        td.company = c.company ∧ td.value = jsRound c.value ∧ td.rep.name = c.repName ∧
        ∀ x ∈ (processItems rt now thr um items).recentDeals.filter (fun r => r.isLastWeek),
          x.value ≤ c.value) := by
  have hsOk := @processItems_stateOk rt now thr um hrt items
  have hvals : ∀ r ∈ (processItems rt now thr um items).recentDeals, 0 < r.value.den :=
    hsOk.2.2.2
  have htop : (processData rt now items goal thr um sm).topDeals =
      buildTopDeals sm (buildSalesReps (processItems rt now thr um items))
        (processItems rt now thr um items).repPhotoMap
        (processItems rt now thr um items).recentDeals := rfl
  refine ⟨processItems_recentDeals rt now thr um items, ?_, ?_, ?_, ?_⟩
  · rw [htop]
    unfold buildTopDeals
    cases he : sortLe (fun a b : RecentDeal => decide (b.value ≤ a.value))
        ((processItems rt now thr um items).recentDeals.filter (fun r => r.isThisWeek)) with
    | nil =>
      simp only [he]
      exact ⟨fun _ => sortLe_eq_nil_iff.mp he, fun _ => trivial⟩
    | cons c tail =>
      simp only [he]
      constructor
      · intro h
        exact absurd h (by simp)
      · intro h
        rw [h] at he
        simp [sortLe] at he
  · intro td htd
    rw [htop] at htd
    unfold buildTopDeals at htd
    cases he : sortLe (fun a b : RecentDeal => decide (b.value ≤ a.value))
        ((processItems rt now thr um items).recentDeals.filter (fun r => r.isThisWeek)) with
    | nil =>
      rw [he] at htd
      simp at htd
    | cons c tail =>
      rw [he] at htd
      simp only [Option.some.injEq] at htd
      have hG : ∀ x ∈ (processItems rt now thr um items).recentDeals.filter
          (fun r => r.isThisWeek), 0 < x.value.den := by
        intro x hx
        exact hvals x (List.mem_filter.mp hx).1
      rcases sortLe_head_max_on (fun a b _ _ => valueLe_total a b)
        (fun a b c ha hb hc hab hbc => valueLe_trans ha hb hc hab hbc) hG he with ⟨hcmem, hmax⟩
      refine ⟨c, hcmem, ?_, ?_, ?_, ?_⟩
      · rw [← htd]
        rfl
      · rw [← htd]
        rfl
      · rw [← htd]
        exact getRepInfo_name _ _ _
      · intro x hx
        exact of_decide_eq_true (hmax x hx)
  · rw [htop]
    unfold buildTopDeals
    cases he : sortLe (fun a b : RecentDeal => decide (b.value ≤ a.value))
        ((processItems rt now thr um items).recentDeals.filter (fun r => r.isLastWeek)) with
    | nil =>
      simp only [he]
      exact ⟨fun _ => sortLe_eq_nil_iff.mp he, fun _ => trivial⟩
    | cons c tail =>
      simp only [he]
      constructor
      · intro h
        exact absurd h (by simp)
      · intro h
        rw [h] at he
        simp [sortLe] at he
  · intro td htd
    rw [htop] at htd
    unfold buildTopDeals at htd
    cases he : sortLe (fun a b : RecentDeal => decide (b.value ≤ a.value))
        ((processItems rt now thr um items).recentDeals.filter (fun r => r.isLastWeek)) with
    | nil =>
      rw [he] at htd
      simp at htd
    | cons c tail =>
      rw [he] at htd
      simp only [Option.some.injEq] at htd
      have hG : ∀ x ∈ (processItems rt now thr um items).recentDeals.filter
          (fun r => r.isLastWeek), 0 < x.value.den := by
        intro x hx
        exact hvals x (List.mem_filter.mp hx).1
      rcases sortLe_head_max_on (fun a b _ _ => valueLe_total a b)
        (fun a b c ha hb hc hab hbc => valueLe_trans ha hb hc hab hbc) hG he with ⟨hcmem, hmax⟩
      refine ⟨c, hcmem, ?_, ?_, ?_, ?_⟩
      · rw [← htd]
        rfl
      · rw [← htd]
        rfl
      · rw [← htd]
        exact getRepInfo_name _ _ _
      · intro x hx
        exact of_decide_eq_true (hmax x hx)

/-- Witness for C4: on a concrete run the this-week highlight exists and is a
maximal candidate's rounded value. -/
theorem claim_C4_witness :
    ∃ td c, (processData rtEx nowEx [itemA, itemB] 100000 0 [] []).topDeals.thisWeek = some td ∧
      c ∈ (processItems rtEx nowEx 0 [] [itemA, itemB]).recentDeals.filter
        (fun r => r.isThisWeek) ∧
      td.value = jsRound c.value := by
  have h := claim_C4_highlights rtEx nowEx [itemA, itemB] 100000 0 [] [] rtEx_floatsOk
  cases htd : (processData rtEx nowEx [itemA, itemB] 100000 0 [] []).topDeals.thisWeek with
  | none => exact absurd (h.2.1.mp htd) (by decide)
  | some td =>
    rcases h.2.2.1 td htd with ⟨c, hc, _, hval, _, _⟩
    exact ⟨td, c, rfl, hc, hval⟩

/-- Totality of the descending comparator on signed-date times. -/
theorem timeLe_total (a b : RecentDeal) :
    decide (b.dateSigned.time ≤ a.dateSigned.time) = true ∨
    decide (a.dateSigned.time ≤ b.dateSigned.time) = true := by
  rcases le_total b.dateSigned.time a.dateSigned.time with h | h
  · exact Or.inl (decide_eq_true h)
  · exact Or.inr (decide_eq_true h)

/-- Transitivity of the descending comparator on signed-date times. -/
theorem timeLe_trans (a b c : RecentDeal)
    (hab : decide (b.dateSigned.time ≤ a.dateSigned.time) = true)
    (hbc : decide (c.dateSigned.time ≤ b.dateSigned.time) = true) :
    decide (c.dateSigned.time ≤ a.dateSigned.time) = true :=
  decide_eq_true (le_trans (of_decide_eq_true hbc) (of_decide_eq_true hab))

/-- Rounded goal percentage at exactly 105% of a positive goal. -/
theorem teamGoalPercentage_105 {sr : List SalesRep} {goal : Int}
    (h : 20 * totalCurrentMonthOf sr = 21 * goal) (hg : 0 < goal) :
    teamGoalPercentage sr goal = 105 := by
  unfold teamGoalPercentage jsRound
  show Int.fdiv (2 * (totalCurrentMonthOf sr * 100) + goal * 1) (2 * (goal * 1)) = 105
  have hnum : 2 * (totalCurrentMonthOf sr * 100) + goal * 1 = goal * 211 := by omega
  have hden : 2 * (goal * 1) = goal * 2 := by ring
  rw [hnum, hden, Int.fdiv_eq_ediv _ (by positivity)]
  rw [Int.mul_ediv_mul_of_pos _ _ hg]
  decide

/-- Real news entries never carry the milestone id 0 (their ids are
`index + 1`). -/
theorem countP_news_id_zero (rt : JsRuntime) (now : NowRef) (sr : List SalesRep)
    (pm : List (String × String)) (i : Nat) (l : List RecentDeal) :
    (mapWithCounter (mkNewsEntry rt now sr pm) i l).countP (fun e => e.id = 0) = 0 := by
  rw [List.countP_eq_zero]
  intro e he
  rcases mem_mapWithCounter he with ⟨j, a, _, rfl⟩
  simp [mkNewsEntry]

/-- C5: the emitted news feed has at most 6 entries and at most one synthetic
milestone entry (id 0); it is exactly the date-descending-sorted candidate
list, capped to 8 then to 6, mapped to entries — with the milestone entry
prepended and the cap leaving only the 5 newest real entries (the oldest
displayed entry is dropped) when the rounded goal percentage exceeds 100;
and when the leaderboard's current-month total is exactly 105% of a positive
goal, the percentage is 105 and exactly one milestone entry appears. -/
theorem claim_C5_news (rt : JsRuntime) (now : NowRef) (items : List MondayItem)
    (goal thr : Int) (um : List (String × MondayUser)) (sm : List (Int × SEInfo)) :
    let st := processItems rt now thr um items
    let sr := buildSalesReps st
    let sorted := sortLe (fun a b => b.dateSigned.time ≤ a.dateSigned.time) st.recentDeals
    let nw := (processData rt now items goal thr um sm).news
    nw.length ≤ 6 ∧
    nw.countP (fun e => e.id = 0) ≤ 1 ∧
    sorted.Pairwise (fun a b => b.dateSigned.time ≤ a.dateSigned.time) ∧
    (teamGoalPercentage sr goal > 100 →
      nw = milestoneEntry rt (teamGoalPercentage sr goal) (totalCurrentMonthOf sr) ::
        mapWithCounter (mkNewsEntry rt now sr st.repPhotoMap) 0 ((sorted.take 8).take 5) ∧
      nw.countP (fun e => e.id = 0) = 1) ∧
    (¬ teamGoalPercentage sr goal > 100 →
      nw = mapWithCounter (mkNewsEntry rt now sr st.repPhotoMap) 0 ((sorted.take 8).take 6) ∧
      nw.countP (fun e => e.id = 0) = 0) ∧
    (20 * totalCurrentMonthOf sr = 21 * goal → 0 < goal →
      teamGoalPercentage sr goal = 105 ∧ nw.countP (fun e => e.id = 0) = 1) := by
  intro st sr sorted nw
  have hup : nw = buildNews rt now goal sr st.repPhotoMap st.recentDeals := rfl
  have hsorted : sorted.Pairwise (fun a b => b.dateSigned.time ≤ a.dateSigned.time) := by
    have hp := @pairwise_sortLe RecentDeal
      (fun a b => decide (b.dateSigned.time ≤ a.dateSigned.time))
      timeLe_total timeLe_trans st.recentDeals
    exact hp.imp (fun h => of_decide_eq_true h)
  have hshape : (teamGoalPercentage sr goal > 100 →
        nw = milestoneEntry rt (teamGoalPercentage sr goal) (totalCurrentMonthOf sr) ::
          mapWithCounter (mkNewsEntry rt now sr st.repPhotoMap) 0 ((sorted.take 8).take 5)) ∧
      (¬ teamGoalPercentage sr goal > 100 →
        nw = mapWithCounter (mkNewsEntry rt now sr st.repPhotoMap) 0
          ((sorted.take 8).take 6)) := by
    rw [hup]
    unfold buildNews
    simp only
    constructor
    · intro hc
      rw [if_pos hc, List.take_succ_cons, mapWithCounter_take]
    · intro hc
      rw [if_neg hc, mapWithCounter_take, List.take_take]
  by_cases hc : teamGoalPercentage sr goal > 100
  · have heq := hshape.1 hc
    have hcount : nw.countP (fun e => e.id = 0) = 1 := by
      rw [heq, List.countP_cons, countP_news_id_zero]
      rfl
    refine ⟨?_, hcount.le, hsorted, fun _ => ⟨heq, hcount⟩, fun h => absurd hc h,
      fun h1 h2 => ⟨teamGoalPercentage_105 h1 h2, hcount⟩⟩
    rw [heq]
    simp only [List.length_cons, length_mapWithCounter]
    have := List.length_take_le 5 (sorted.take 8)
    omega
  · have heq := hshape.2 hc
    have hcount : nw.countP (fun e => e.id = 0) = 0 := by
      rw [heq, countP_news_id_zero]
    refine ⟨?_, by rw [hcount]; omega, hsorted, fun h => absurd h hc,
      fun _ => ⟨heq, hcount⟩, fun h1 h2 =>
        absurd (by rw [teamGoalPercentage_105 h1 h2]; omega) hc⟩
    rw [heq, length_mapWithCounter]
    have := List.length_take_le 6 (sorted.take 8)
    omega
